import Mathlib

/-!
The chatterbox-api room / session signalling coordinator.

A shallow embedding of `src/index.js`.  The MongoDB collection of `Room`
documents is an ordered list of rooms (scan order = list order), the
socket.io side effects (`socket.join`, `socket.to(..).emit`, `io.to(..).emit`)
are recorded as a list of effects, and `Math.random()` is a stream of IEEE
754 doubles in `[0, 1)`.
-/

namespace Chatterbox

/-! ## Data model (`userSchema`, `roomSchema`) -/

/-- One entry of `room.users`.  `socketID`, `peerID` and `name` may be
null / absent; `type` is the string the source stores (`host` or `guest`). -/
structure User where
  userId : String
  socketID : Option String
  peerID : Option String
  type : String
  name : Option String
deriving DecidableEq, Repr

/-- A `Room` document. -/
structure Room where
  roomID : String
  users : List User
deriving DecidableEq, Repr

/-- The `rooms` collection, in scan order. -/
abbrev Store := List Room

/-! ## Randomness and the identifier generator -/

/-- One value returned by `Math.random()`: an IEEE 754 double in `[0, 1)`,
written `mant / 2 ^ exp` with `mant < 2 ^ 53` and `53 ≤ exp ≤ 1074`.  The
zero, subnormal and normal doubles below 1 are exactly the values of this
form. -/
structure Draw where
  mant : Nat
  exp : Nat
  mant_lt : mant < 2 ^ 53
  exp_ge : 53 ≤ exp
  exp_le : exp ≤ 1074

/-- The alphabet of `generateId`. -/
def chars : String := "abcdefghijklmnopqrstuvwxyz1234567890"

/-- JavaScript `s.charAt(i)`: the one-character string at index `i`, or the
empty string when `i` is out of range. -/
def charAt (s : String) (i : Nat) : String :=
  match s.data.get? i with
  | some c => String.singleton c
  | none => ""

/-- Number of low bits that a natural number `p` loses when it is rounded
to the 53 significant bits of a double: `0` when `p < 2 ^ 53`, otherwise one
more than for `p / 2`.  The first argument bounds the recursion. -/
def dropBits : Nat → Nat → Nat
  | 0, _ => 0
  | fuel + 1, p => if p < 2 ^ 53 then 0 else dropBits fuel (p / 2) + 1

/-- Round `p / 2 ^ s` to the nearest integer, ties to the even one (the IEEE
754 default rounding). -/
def roundNearestEven (p s : Nat) : Nat :=
  let q := p / 2 ^ s
  let r := p % 2 ^ s
  if 2 ^ s < 2 * r then q + 1
  else if 2 * r = 2 ^ s ∧ q % 2 = 1 then q + 1
  else q

/-- The index `Math.floor(Math.random() * chars.length)` for one draw.  The
exact product is `p / 2 ^ exp` with `p = mant * chars.length`; the double
product keeps 53 significant bits of `p`, rounded to nearest, ties to even
(a subnormal result has `p < 2 ^ 53` and is exact), and `Math.floor` takes
the integer part of that double. -/
def drawIndex (d : Draw) : Nat :=
  let p := d.mant * chars.length
  let s := dropBits 64 p
  (roundNearestEven p s * 2 ^ s) / 2 ^ d.exp

/-- The function `generateId`: nine characters, the `i`-th one chosen by the
`i`-th draw of the randomness source. -/
def generateId (rand : Nat → Draw) : String :=
  String.join ((List.range 9).map fun i => charAt chars (drawIndex (rand i)))

/-! ## Store operations (`Room.findOne`, `save`, `deleteOne`) -/

/-- The query `Room.findOne({ roomID })`: first room with that id. -/
def findOne (roomID : String) (store : Store) : Option Room :=
  store.find? fun r => r.roomID == roomID

/-- The call `room.save()` for a document obtained by `findOne({ roomID })`:
the first room with that id is replaced by the updated document. -/
def saveFound (roomID : String) (room : Room) : Store → Store
  | [] => []
  | r :: rest =>
    if r.roomID == roomID then room :: rest else r :: saveFound roomID room rest

/-- The call `Room.deleteOne({ roomID })`: the first room with that id is
removed. -/
def deleteOne (roomID : String) : Store → Store
  | [] => []
  | r :: rest => if r.roomID == roomID then rest else r :: deleteOne roomID rest

/-! ## Events and effects -/

/-- Server-to-client events. -/
inductive Event where
  | userJoined (peerID : Option String) (userId : String) (name : Option String)
  | newMessage (sender : String) (message : String) (name : Option String)
  | muted
  | userDisconnected (peerID : Option String)
deriving DecidableEq, Repr

/-- Calls made on the socket.io gateway. -/
inductive Effect where
  /-- The call `socket.join(roomID)` -/
  | joinGroup (socketId : String) (roomID : String)
  /-- The call `socket.to(roomID).emit(ev)`: to the group of `roomID`, the
  sending socket excluded -/
  | toRoomExcept (roomID : String) (socketId : String) (ev : Event)
  /-- The call `io.to(target).emit(ev)` -/
  | toSocket (target : Option String) (ev : Event)
deriving DecidableEq, Repr

/-! ## `POST /create-room` -/

/-- JSON body of the HTTP response of `/create-room`. -/
inductive CreateBody where
  | error (msg : String)
  | created (roomID : String) (role : String) (userId : String)
deriving DecidableEq, Repr

/-- Outcome of `/create-room`: the store afterwards and the HTTP response. -/
structure CreateResult where
  store : Store
  status : Nat
  body : CreateBody
deriving DecidableEq, Repr

/-- The handler of `POST /create-room`.  The first nine draws make the room
id, the next nine the host user id. -/
def createRoom (rand : Nat → Draw) (store : Store) : CreateResult :=
  let roomID := generateId rand
  match findOne roomID store with
  | some _ => ⟨store, 400, .error "Room already exists"⟩
  | none =>
    let hostUserId := generateId fun i => rand (i + 9)
    let newRoom : Room :=
      ⟨roomID, [⟨hostUserId, none, none, "host", none⟩]⟩
    ⟨store ++ [newRoom], 200, .created roomID "host" hostUserId⟩

/-! ## `join-room` -/

/-- Payload of `join-room`. -/
structure JoinPayload where
  roomID : String
  peerID : Option String
  userId : String
  name : Option String
deriving DecidableEq, Repr

/-- Argument passed to the acknowledgement callback of `join-room`. -/
inductive JoinAck where
  | error (msg : String)
  | ok (role : String) (users : List User)
deriving DecidableEq, Repr

/-- Outcome of `join-room`. -/
structure JoinResult where
  store : Store
  ack : JoinAck
  effects : List Effect
deriving DecidableEq, Repr

/-- JavaScript `!name` for an optional string: absent or empty. -/
def nameMissing : Option String → Bool
  | none => true
  | some s => s == ""

/-- The assignments `user.socketID = ..; user.peerID = ..; user.name = ..` on
the element returned by `room.users.find(u => u.userId === userId)`, i.e. on
the first user with that id. -/
def reconnectUser (userId : String) (socketId : String) (peerID name : Option String) :
    List User → List User
  | [] => []
  | u :: rest =>
    if u.userId == userId then
      { u with socketID := some socketId, peerID := peerID, name := name } :: rest
    else u :: reconnectUser userId socketId peerID name rest

/-- The common tail of `handleJoinRoom` after the room was updated: save,
join the broadcast group, answer and announce. -/
def finishJoin (socketId : String) (p : JoinPayload) (store : Store) (room : Room)
    (role : String) (userId : String) (name : Option String) : JoinResult :=
  let existingUsers := room.users.filter fun user => user.socketID != some socketId
  ⟨saveFound p.roomID room store,
   .ok role existingUsers,
   [.joinGroup socketId p.roomID,
    .toRoomExcept p.roomID socketId (.userJoined p.peerID userId name)]⟩

/-- The handler of `join-room` on the socket `socketId`. -/
def handleJoinRoom (socketId : String) (p : JoinPayload) (rand : Nat → Draw)
    (store : Store) : JoinResult :=
  match findOne p.roomID store with
  | none => ⟨store, .error "Room does not exist", []⟩
  | some room =>
    let roomLength := room.users.length
    let name : Option String :=
      if p.userId == "" && nameMissing p.name then
        some ("Guest " ++ toString roomLength)
      else p.name
    if p.userId != "" then
      match room.users.find? fun u => u.userId == p.userId with
      | some user =>
        let room' : Room :=
          { room with users := reconnectUser p.userId socketId p.peerID name room.users }
        finishJoin socketId p store room' user.type p.userId name
      | none => ⟨store, .error "Invalid userId", []⟩
    else
      let userId := generateId rand
      let room' : Room :=
        { room with users := room.users ++ [⟨userId, some socketId, p.peerID, "guest", name⟩] }
      finishJoin socketId p store room' "guest" userId name

/-! ## `chat-message`, `mute-user` -/

/-- Payload of `chat-message`. -/
structure ChatPayload where
  sender : String
  message : String
  roomID : String
  name : Option String
deriving DecidableEq, Repr

/-- The handler of `chat-message` on the socket `socketId`. -/
def handleChat (socketId : String) (p : ChatPayload) (store : Store) : Store × List Effect :=
  match findOne p.roomID store with
  | some _ => (store, [.toRoomExcept p.roomID socketId (.newMessage p.sender p.message p.name)])
  | none => (store, [])

/-- The handler of `mute-user`. -/
def handleMuteUser (roomID : String) (targetUserId : String) (store : Store) :
    Store × List Effect :=
  match findOne roomID store with
  | some room =>
    match room.users.find? fun user => user.userId == targetUserId with
    | some targetUser => (store, [.toSocket targetUser.socketID .muted])
    | none => (store, [])
  | none => (store, [])

/-! ## `disconnect` -/

/-- The `for (const room of rooms)` loop of `handleDisconnect`: `db` is the
collection, `rooms` the part of the scan still to do and `idx` the position
of its head in the collection. -/
def disconnectLoop (socketId : String) (db : Store) : List Room → Nat → Store × List Effect
  | [], _ => (db, [])
  | room :: rest, idx =>
    match room.users.find? fun user => user.socketID == some socketId with
    | some disconnectedUser =>
      let users := room.users.filter fun user => user.socketID != some socketId
      let effects := [Effect.toRoomExcept room.roomID socketId
        (.userDisconnected disconnectedUser.peerID)]
      if users.length == 0 then (deleteOne room.roomID db, effects)
      else (db.set idx { room with users := users }, effects)
    | none => disconnectLoop socketId db rest (idx + 1)

/-- The handler of `disconnect` on the socket `socketId`. -/
def handleDisconnect (socketId : String) (store : Store) : Store × List Effect :=
  disconnectLoop socketId store store 0

/-! ## Runs of the coordinator -/

/-- One operation of the coordinator, with the inputs it receives. -/
inductive Op where
  | createRoom (rand : Nat → Draw)
  | joinRoom (socketId : String) (p : JoinPayload) (rand : Nat → Draw)
  | chatMessage (socketId : String) (p : ChatPayload)
  | muteUser (roomID : String) (targetUserId : String)
  | disconnect (socketId : String)

/-- The store after running one operation to completion. -/
def step (store : Store) : Op → Store
  | .createRoom rand => (createRoom rand store).store
  | .joinRoom socketId p rand => (handleJoinRoom socketId p rand store).store
  | .chatMessage socketId p => (handleChat socketId p store).1
  | .muteUser roomID targetUserId => (handleMuteUser roomID targetUserId store).1
  | .disconnect socketId => (handleDisconnect socketId store).1

/-- The store after running a sequence of operations one at a time. -/
def run (store : Store) (ops : List Op) : Store := ops.foldl step store

/-- Stores reachable from the empty collection. -/
def Reachable (store : Store) : Prop := ∃ ops : List Op, run [] ops = store

/-! ## Sample inputs -/

/-- A randomness source whose every draw is `0`. -/
def zeroRand : Nat → Draw := fun _ => ⟨0, 53, by norm_num, by norm_num, by norm_num⟩

/-- A randomness source whose every draw is `1/2`. -/
def halfRand : Nat → Draw :=
  fun _ => ⟨2 ^ 52, 53, by norm_num, by norm_num, by norm_num⟩

/-- The double nearest to `4/9`, which is `8006399337547548 / 2 ^ 54`. -/
def fourNinths : Draw := ⟨8006399337547548, 54, by norm_num, by norm_num, by norm_num⟩

/-- A run in which a room is created, its host joins on socket `cH` and a
guest joins with an empty user id on socket `cA`. -/
def reconnectOps : List Op :=
  [Op.createRoom zeroRand,
   Op.joinRoom "cH" ⟨"aaaaaaaaa", some "pH", "aaaaaaaaa", some "Hana"⟩ zeroRand,
   Op.joinRoom "cA" ⟨"aaaaaaaaa", some "pA", "", some "Ann"⟩ halfRand]

/-- The store reached by `reconnectOps`. -/
def reconnectStore : Store := run [] reconnectOps

/-- The guest of `reconnectStore`. -/
def reconnectGuest : User := ⟨"sssssssss", some "cA", some "pA", "guest", some "Ann"⟩

/-- The room of `reconnectStore`. -/
def reconnectRoom : Room :=
  ⟨"aaaaaaaaa", [⟨"aaaaaaaaa", some "cH", some "pH", "host", some "Hana"⟩, reconnectGuest]⟩

/-! ## Invariants -/

/-- Every stored room has at least one user. -/
def RoomsNonempty (store : Store) : Prop := ∀ r ∈ store, r.users ≠ []

/-- A store in which socket `c1` holds a user in two rooms. -/
def twoRoomStore : Store :=
  [⟨"q", [⟨"x", none, none, "host", none⟩]⟩,
   ⟨"r", [⟨"h", some "c0", some "p0", "host", none⟩,
          ⟨"g", some "c1", some "p1", "guest", some "Bob"⟩]⟩,
   ⟨"s", [⟨"k", some "c1", some "p2", "host", none⟩]⟩]

/-- A run in which the generator returns the same identifier for the room,
its host and the first guest. -/
def collidingOps : List Op :=
  [Op.createRoom zeroRand,
   Op.joinRoom "c1" ⟨"aaaaaaaaa", some "p1", "", none⟩ zeroRand]

/-! ## Delivery of `muted` -/

/-- Modelled from the spec: the Broadcast Gateway (socket.io, an external
collaborator that is not under `src/`) "delivers targeted events to one
connection".  The connections reached by the `muted` events of a list of
gateway calls: `io.to(id).emit("muted")` reaches the connection with that id,
and a null target names no connection and reaches none. -/
def mutedDeliveries : List Effect → List String
  | [] => []
  | .toSocket (some c) .muted :: rest => c :: mutedDeliveries rest
  | _ :: rest => mutedDeliveries rest

/-! ## Connections and users -/

/-- Number of users, over all rooms, whose socket id is `c`. -/
def socketCount (c : String) (store : Store) : Nat :=
  (store.map fun r => r.users.countP fun u => u.socketID == some c).sum

/-- At most one user in the whole store has any given socket id. -/
def UniqueSockets (store : Store) : Prop := ∀ c : String, socketCount c store ≤ 1

/-- Every `join-room` of the run arrives on a socket that no stored user
holds at that moment. -/
def FreshJoins : Store → List Op → Prop
  | _, [] => True
  | store, op :: rest =>
    (match op with
      | .joinRoom c _ _ => socketCount c store = 0
      | _ => True) ∧ FreshJoins (step store op) rest

/-- A randomness source whose every draw is `1/32`. -/
def oneRand : Nat → Draw :=
  fun _ => ⟨2 ^ 48, 53, by norm_num, by norm_num, by norm_num⟩

/-- A run in which the socket `c1` joins the same room twice with an empty
user id. -/
def doubleJoinOps : List Op :=
  [Op.createRoom zeroRand,
   Op.joinRoom "c1" ⟨"aaaaaaaaa", some "p1", "", some "Ann"⟩ halfRand,
   Op.joinRoom "c1" ⟨"aaaaaaaaa", some "p1", "", some "Ann"⟩ oneRand]

/-- A run in which the socket `c1` joins two rooms with an empty user id and
then disconnects. -/
def twoRoomJoinOps : List Op :=
  [Op.createRoom zeroRand,
   Op.createRoom halfRand,
   Op.joinRoom "c1" ⟨"aaaaaaaaa", some "p1", "", some "Ann"⟩ oneRand,
   Op.joinRoom "c1" ⟨"sssssssss", some "p1", "", some "Ann"⟩ oneRand,
   Op.disconnect "c1"]

/-! ## Roles -/

/-- Only the first user of a room may be a host: every later user is a
guest, and every user is a host or a guest. -/
def RolesOrdered (users : List User) : Prop :=
  (∀ t ∈ (users.map User.type).tail, t = "guest") ∧
  (∀ t ∈ users.map User.type, t = "host" ∨ t = "guest")

/-- The users of `r'` are users of `r` with the roles they had: `r'` holds
some of the user records of `r` in their order, or the same users with the
same user ids and roles position by position, or the users of `r` followed by
one new guest. -/
def RolesKept (r r' : Room) : Prop :=
  r'.users.Sublist r.users ∨
  r'.users.map (fun u => (u.userId, u.type)) = r.users.map (fun u => (u.userId, u.type)) ∨
  ∃ u : User, r'.users = r.users ++ [u] ∧ u.type = "guest"

/-! ## Lemmas on the identifier generator -/

theorem dropBits_lt (fuel p : Nat) (h : p < 2 ^ (53 + fuel)) :
    p < 2 ^ (53 + dropBits fuel p) := by
  induction fuel generalizing p with
  | zero => simpa [dropBits] using h
  | succ n ih =>
    unfold dropBits
    by_cases hp : p < 2 ^ 53
    · rw [if_pos hp]; exact hp
    · rw [if_neg hp]
      have h2 : p / 2 < 2 ^ (53 + n) := by
        rw [Nat.div_lt_iff_lt_mul (by norm_num)]
        calc p < 2 ^ (53 + (n + 1)) := h
          _ = 2 ^ (53 + n) * 2 := by rw [← Nat.add_assoc, Nat.pow_succ]
      have := ih (p / 2) h2
      have h3 : 2 ^ (53 + (dropBits n (p / 2) + 1)) = 2 ^ (53 + dropBits n (p / 2)) * 2 := by
        rw [← Nat.add_assoc, Nat.pow_succ]
      rw [h3]
      omega

theorem dropBits_le (fuel p : Nat) (h : dropBits fuel p ≠ 0) :
    2 ^ (52 + dropBits fuel p) ≤ p := by
  induction fuel generalizing p with
  | zero => simp [dropBits] at h
  | succ n ih =>
    unfold dropBits at h ⊢
    by_cases hp : p < 2 ^ 53
    · rw [if_pos hp] at h; exact absurd rfl h
    · rw [if_neg hp]
      have h3 : 2 ^ (52 + (dropBits n (p / 2) + 1)) = 2 ^ (52 + dropBits n (p / 2)) * 2 := by
        rw [← Nat.add_assoc, Nat.pow_succ]
      rw [h3]
      by_cases hz : dropBits n (p / 2) = 0
      · rw [hz]
        norm_num at hp ⊢
        omega
      · have := ih (p / 2) hz
        omega

/-- The rounded double product of a double below 1 and 36 stays below 36, so
its integer part is an index into the alphabet. -/
theorem drawIndex_lt (d : Draw) : drawIndex d < 36 := by
  unfold drawIndex
  have hlen : chars.length = 36 := by decide
  rw [hlen]
  simp only
  have hm := d.mant_lt
  have hp : d.mant * 36 < 2 ^ (53 + 64) := by
    have : (2:Nat) ^ 53 * 36 < 2 ^ (53 + 64) := by norm_num
    omega
  have hlt := dropBits_lt 64 (d.mant * 36) hp
  have hle := dropBits_le 64 (d.mant * 36)
  have hk2 : (2:Nat) ^ 53 ≤ 2 ^ d.exp := Nat.pow_le_pow_right (by norm_num) d.exp_ge
  rw [Nat.div_lt_iff_lt_mul (by positivity)]
  suffices hs : roundNearestEven (d.mant * 36) (dropBits 64 (d.mant * 36)) *
      2 ^ dropBits 64 (d.mant * 36) < 36 * 2 ^ 53 by
    calc _ < 36 * 2 ^ 53 := hs
      _ ≤ 36 * 2 ^ d.exp := Nat.mul_le_mul_left _ hk2
  generalize dropBits 64 (d.mant * 36) = s at hlt hle ⊢
  generalize d.mant = m at hm hlt hle ⊢
  have hs6 : s ≤ 6 := by
    by_contra hcon
    have h7 : 7 ≤ s := by omega
    have := hle (by omega)
    have h59 : (2:Nat) ^ (52 + 7) ≤ 2 ^ (52 + s) := Nat.pow_le_pow_right (by norm_num) (by omega)
    norm_num at h59 hm
    omega
  unfold roundNearestEven
  simp only
  interval_cases s <;> norm_num at hm hlt hle ⊢ <;> split_ifs <;> omega

/-- At the double nearest to `4/9` the exact product with 36 lies just below
16 and the double product is 16: the index is 16. -/
theorem drawIndex_fourNinths : drawIndex fourNinths = 16 := by decide

theorem charAt_chars_length : ∀ i : Fin 36, (charAt chars i.val).length = 1 := by decide

theorem charAt_draw_length (d : Draw) : (charAt chars (drawIndex d)).length = 1 :=
  charAt_chars_length ⟨drawIndex d, drawIndex_lt d⟩

theorem length_join (l : List String) : (String.join l).length = (l.map String.length).sum := by
  have key : ∀ (l : List String) (acc : String),
      (l.foldl (fun r s => r ++ s) acc).length = acc.length + (l.map String.length).sum := by
    intro l
    induction l with
    | nil => intro acc; simp
    | cons a t ih => intro acc; simp [ih, String.length_append, Nat.add_assoc]
  simpa [String.join] using key l ""

theorem generateId_length (rand : Nat → Draw) : (generateId rand).length = 9 := by
  simp [generateId, length_join, List.range_succ, charAt_draw_length, Function.comp_def]

theorem generateId_ne_empty (rand : Nat → Draw) : generateId rand ≠ "" := by
  intro h
  have := generateId_length rand
  rw [h] at this
  exact absurd this (by decide)

/-! ## Lemmas on the store operations -/

theorem findOne_roomID {roomID : String} {store : Store} {room : Room}
    (h : findOne roomID store = some room) : room.roomID = roomID := by
  have := List.find?_some h
  simpa using this

theorem findOne_mem {roomID : String} {store : Store} {room : Room}
    (h : findOne roomID store = some room) : room ∈ store :=
  List.mem_of_find?_eq_some h

theorem findOne_append_of_none {roomID : String} {store : Store} (room : Room)
    (h : findOne roomID store = none) (hid : room.roomID = roomID) :
    findOne roomID (store ++ [room]) = some room := by
  unfold findOne at *
  rw [List.find?_append, h]
  simp [hid]

theorem findOne_saveFound {roomID : String} {store : Store} {old : Room} (room : Room)
    (h : findOne roomID store = some old) (hid : room.roomID = roomID) :
    findOne roomID (saveFound roomID room store) = some room := by
  induction store with
  | nil => simp [findOne] at h
  | cons r rest ih =>
    by_cases hr : r.roomID = roomID
    · simp [saveFound, findOne, hr, hid]
    · have h' : findOne roomID rest = some old := by
        simpa [findOne, List.find?_cons, hr] using h
      simpa [saveFound, findOne, List.find?_cons, hr] using ih h'

theorem saveFound_self {roomID : String} {store : Store} {room : Room}
    (h : findOne roomID store = some room) : saveFound roomID room store = store := by
  induction store with
  | nil => rfl
  | cons r rest ih =>
    by_cases hr : r.roomID = roomID
    · have : r = room := by simpa [findOne, List.find?_cons, hr] using h
      subst this
      simp [saveFound, hr]
    · have h' : findOne roomID rest = some room := by
        simpa [findOne, List.find?_cons, hr] using h
      simp [saveFound, hr, ih h']

/-! ## Room creation -/

/-- C6: when the generated room id is already the id of a stored room,
`/create-room` answers 400 with the error `Room already exists` and the store
(hence every room and its user list) is unchanged. -/
theorem createRoom_collision (rand : Nat → Draw) (store : Store) (existing : Room)
    (h : findOne (generateId rand) store = some existing) :
    (createRoom rand store).status = 400 ∧
    (createRoom rand store).body = .error "Room already exists" ∧
    (createRoom rand store).store = store ∧
    findOne (generateId rand) (createRoom rand store).store = some existing := by
  simp [createRoom, h]

theorem createRoom_collision_witness :
    findOne (generateId zeroRand) [⟨"aaaaaaaaa", [⟨"u", none, none, "host", none⟩]⟩]
        = some ⟨"aaaaaaaaa", [⟨"u", none, none, "host", none⟩]⟩ ∧
    ((createRoom zeroRand [⟨"aaaaaaaaa", [⟨"u", none, none, "host", none⟩]⟩]).status = 400 ∧
     (createRoom zeroRand [⟨"aaaaaaaaa", [⟨"u", none, none, "host", none⟩]⟩]).body
        = .error "Room already exists" ∧
     (createRoom zeroRand [⟨"aaaaaaaaa", [⟨"u", none, none, "host", none⟩]⟩]).store
        = [⟨"aaaaaaaaa", [⟨"u", none, none, "host", none⟩]⟩] ∧
     findOne (generateId zeroRand)
        (createRoom zeroRand [⟨"aaaaaaaaa", [⟨"u", none, none, "host", none⟩]⟩]).store
        = some ⟨"aaaaaaaaa", [⟨"u", none, none, "host", none⟩]⟩) :=
  ⟨by decide, createRoom_collision zeroRand _ _ (by decide)⟩

/-- C7: when the generated room id is not in the store, `/create-room`
appends exactly one room with that id whose only user is a host with the
generated host user id and a null socket id, leaves every stored room as it
was, and answers 200 with the same room id, role `host` and host user id. -/
theorem createRoom_fresh (rand : Nat → Draw) (store : Store)
    (h : findOne (generateId rand) store = none) :
    ∃ hostUser : User,
      hostUser.type = "host" ∧
      hostUser.userId = generateId (fun i => rand (i + 9)) ∧
      hostUser.socketID = none ∧
      (createRoom rand store).store = store ++ [⟨generateId rand, [hostUser]⟩] ∧
      (createRoom rand store).status = 200 ∧
      (createRoom rand store).body = .created (generateId rand) "host" hostUser.userId := by
  refine ⟨⟨generateId (fun i => rand (i + 9)), none, none, "host", none⟩, rfl, rfl, rfl, ?_⟩
  simp [createRoom, h]

theorem createRoom_fresh_witness :
    findOne (generateId zeroRand) [] = none ∧
    ∃ hostUser : User,
      hostUser.type = "host" ∧
      hostUser.userId = generateId (fun i => zeroRand (i + 9)) ∧
      hostUser.socketID = none ∧
      (createRoom zeroRand []).store = [] ++ [⟨generateId zeroRand, [hostUser]⟩] ∧
      (createRoom zeroRand []).status = 200 ∧
      (createRoom zeroRand []).body = .created (generateId zeroRand) "host" hostUser.userId :=
  ⟨by decide, createRoom_fresh zeroRand [] (by decide)⟩

/-- C1: whenever `/create-room` succeeds and returns a room id and a host
user id, a join issued right afterwards with that room id and user id, from
any socket and with any peer id and name, is acknowledged without error and
with role `host`. -/
theorem join_after_create_is_host (rand : Nat → Draw) (store : Store)
    (roomID role hostUserID : String)
    (h : (createRoom rand store).body = .created roomID role hostUserID)
    (socketId : String) (peerID name : Option String) (rand' : Nat → Draw) :
    ∃ users : List User,
      (handleJoinRoom socketId ⟨roomID, peerID, hostUserID, name⟩ rand'
        (createRoom rand store).store).ack = .ok "host" users := by
  unfold createRoom at h ⊢
  cases hf : findOne (generateId rand) store with
  | some r => simp [hf] at h
  | none =>
    simp only [hf] at h ⊢
    injection h with h1 h2 h3
    subst h1 h3
    have hne := generateId_ne_empty (fun i => rand (i + 9))
    have hfind := findOne_append_of_none
      (⟨generateId rand, [⟨generateId (fun i => rand (i + 9)), none, none, "host", none⟩]⟩ : Room)
      hf rfl
    simp [handleJoinRoom, hfind, hne, finishJoin]

theorem join_after_create_is_host_witness :
    (createRoom zeroRand []).body = .created "aaaaaaaaa" "host" "aaaaaaaaa" ∧
    ∃ users : List User,
      (handleJoinRoom "c1" ⟨"aaaaaaaaa", some "p1", "aaaaaaaaa", some "Ann"⟩ halfRand
        (createRoom zeroRand []).store).ack = .ok "host" users :=
  ⟨by decide, join_after_create_is_host zeroRand [] "aaaaaaaaa" "host" "aaaaaaaaa" (by decide)
    "c1" (some "p1") (some "Ann") halfRand⟩

/-! ## Joining a room -/

theorem find?_userId_none {userId : String} {users : List User} :
    users.find? (fun u => u.userId == userId) = none ↔ ∀ u ∈ users, u.userId ≠ userId := by
  simp [List.find?_eq_none]

/-- Shape of the user list around the first user with a given id, and what
`reconnectUser` does to it. -/
theorem reconnectUser_split (userId socketId : String) (peerID name : Option String)
    (users : List User) (h : ∃ u ∈ users, u.userId = userId) :
    ∃ pre u post,
      users = pre ++ u :: post ∧ (∀ x ∈ pre, x.userId ≠ userId) ∧ u.userId = userId ∧
      users.find? (fun x => x.userId == userId) = some u ∧
      reconnectUser userId socketId peerID name users =
        pre ++ ⟨u.userId, some socketId, peerID, u.type, name⟩ :: post := by
  induction users with
  | nil => simp at h
  | cons a t ih =>
    by_cases ha : a.userId = userId
    · exact ⟨[], a, t, by simp, by simp, ha, by simp [ha], by simp [reconnectUser, ha]⟩
    · have h' : ∃ u ∈ t, u.userId = userId := by
        obtain ⟨u, hu, hid⟩ := h
        rcases List.mem_cons.mp hu with rfl | hu
        · exact absurd hid ha
        · exact ⟨u, hu, hid⟩
      obtain ⟨pre, u, post, h1, h2, h3, h4, h5⟩ := ih h'
      refine ⟨a :: pre, u, post, by simp [h1], ?_, h3, ?_, ?_⟩
      · intro x hx
        rcases List.mem_cons.mp hx with rfl | hx
        · exact ha
        · exact h2 x hx
      · simpa [List.find?_cons, ha] using h4
      · simp [reconnectUser, ha, h5]

/-- Every acknowledged join went through the common tail `finishJoin` with a
room document that keeps the requested room id. -/
theorem handleJoinRoom_ok_shape (socketId : String) (p : JoinPayload) (rand : Nat → Draw)
    (store : Store) (role : String) (users : List User)
    (h : (handleJoinRoom socketId p rand store).ack = .ok role users) :
    ∃ (room room' : Room) (userId : String) (name : Option String),
      findOne p.roomID store = some room ∧ room'.roomID = p.roomID ∧
      handleJoinRoom socketId p rand store =
        finishJoin socketId p store room' role userId name := by
  unfold handleJoinRoom at h ⊢
  cases hf : findOne p.roomID store with
  | none => simp [hf] at h
  | some room =>
    have hid := findOne_roomID hf
    simp only [hf] at h ⊢
    by_cases hu : p.userId = ""
    · simp only [hu, bne_self_eq_false, Bool.false_eq_true, if_false] at h ⊢
      simp only [finishJoin, JoinAck.ok.injEq] at h
      obtain ⟨hrole, _⟩ := h
      subst hrole
      refine ⟨room, _, _, _, rfl, ?_, rfl⟩
      exact hid
    · have hb : (p.userId != "") = true := by simpa using hu
      simp only [hb, if_true] at h ⊢
      cases hfu : room.users.find? (fun u => u.userId == p.userId) with
      | none => simp [hfu] at h
      | some user =>
        simp only [hfu] at h ⊢
        simp only [finishJoin, JoinAck.ok.injEq] at h
        obtain ⟨hrole, _⟩ := h
        subst hrole
        refine ⟨room, _, _, _, rfl, ?_, rfl⟩
        exact hid

/-- C3: reconnect path.  When the room exists and the non-empty `userId`
matches a user of the room, the join is acknowledged with that user's stored
role; in the saved room the first matching user has the caller's socket id,
the supplied peer id and the supplied name (no default label), the same user
id and role, and all users before and after it are as they were, so the
number and order of users are unchanged. -/
theorem join_reconnect (socketId : String) (p : JoinPayload) (rand : Nat → Draw)
    (store : Store) (room : Room)
    (hroom : findOne p.roomID store = some room)
    (hne : p.userId ≠ "")
    (hmatch : ∃ u ∈ room.users, u.userId = p.userId) :
    ∃ (pre : List User) (u : User) (post : List User) (users : List User),
      room.users = pre ++ u :: post ∧
      (∀ x ∈ pre, x.userId ≠ p.userId) ∧
      u.userId = p.userId ∧
      (handleJoinRoom socketId p rand store).ack = .ok u.type users ∧
      findOne p.roomID (handleJoinRoom socketId p rand store).store =
        some ⟨room.roomID,
          pre ++ ⟨u.userId, some socketId, p.peerID, u.type, p.name⟩ :: post⟩ ∧
      (pre ++ (⟨u.userId, some socketId, p.peerID, u.type, p.name⟩ : User) :: post).length
        = room.users.length := by
  obtain ⟨pre, u, post, h1, h2, h3, h4, h5⟩ :=
    reconnectUser_split p.userId socketId p.peerID p.name room.users hmatch
  have hb : (p.userId != "") = true := by simpa using hne
  have hid := findOne_roomID hroom
  have hname : (if (p.userId == "" && nameMissing p.name) = true then
      some ("Guest " ++ toString room.users.length) else p.name) = p.name := by
    simp [hne]
  refine ⟨pre, u, post,
    (pre ++ (⟨u.userId, some socketId, p.peerID, u.type, p.name⟩ : User) :: post).filter
      (fun user => user.socketID != some socketId), h1, h2, h3, ?_, ?_, by simp [h1]⟩
  · simp only [handleJoinRoom, hroom, hb, if_true, h4, finishJoin, hname, h5]
  · simp only [handleJoinRoom, hroom, hb, if_true, h4, finishJoin, hname, h5]
    exact findOne_saveFound _ hroom hid

theorem join_reconnect_witness :
    ∃ (pre : List User) (u : User) (post : List User) (users : List User),
      (⟨"r", [⟨"h", none, none, "host", none⟩, ⟨"g", some "c0", some "p0", "guest", some "Bob"⟩]⟩
        : Room).users = pre ++ u :: post ∧
      (∀ x ∈ pre, x.userId ≠ (⟨"r", some "p1", "g", none⟩ : JoinPayload).userId) ∧
      u.userId = (⟨"r", some "p1", "g", none⟩ : JoinPayload).userId ∧
      (handleJoinRoom "c1" ⟨"r", some "p1", "g", none⟩ zeroRand
        [⟨"r", [⟨"h", none, none, "host", none⟩,
                ⟨"g", some "c0", some "p0", "guest", some "Bob"⟩]⟩]).ack = .ok u.type users ∧
      findOne (⟨"r", some "p1", "g", none⟩ : JoinPayload).roomID
        (handleJoinRoom "c1" ⟨"r", some "p1", "g", none⟩ zeroRand
          [⟨"r", [⟨"h", none, none, "host", none⟩,
                  ⟨"g", some "c0", some "p0", "guest", some "Bob"⟩]⟩]).store =
        some ⟨"r", pre ++ ⟨u.userId, some "c1", some "p1", u.type, none⟩ :: post⟩ ∧
      (pre ++ (⟨u.userId, some "c1", some "p1", u.type, none⟩ : User) :: post).length
        = (⟨"r", [⟨"h", none, none, "host", none⟩,
                  ⟨"g", some "c0", some "p0", "guest", some "Bob"⟩]⟩ : Room).users.length :=
  join_reconnect "c1" ⟨"r", some "p1", "g", none⟩ zeroRand
    [⟨"r", [⟨"h", none, none, "host", none⟩, ⟨"g", some "c0", some "p0", "guest", some "Bob"⟩]⟩]
    ⟨"r", [⟨"h", none, none, "host", none⟩, ⟨"g", some "c0", some "p0", "guest", some "Bob"⟩]⟩
    (by decide) (by decide) ⟨⟨"g", some "c0", some "p0", "guest", some "Bob"⟩, by decide, rfl⟩

/-- C4: for every acknowledged join on socket `socketId`, the `users` list of
the acknowledgement is exactly the user list of the saved room, in stored
order, without the users whose socket id is `socketId`; so it holds no entry
with that socket id and holds every user of the room with another (or no)
socket id. -/
theorem join_existingUsers (socketId : String) (p : JoinPayload) (rand : Nat → Draw)
    (store : Store) (role : String) (users : List User)
    (h : (handleJoinRoom socketId p rand store).ack = .ok role users) :
    ∃ room' : Room,
      findOne p.roomID (handleJoinRoom socketId p rand store).store = some room' ∧
      users = room'.users.filter (fun u => decide (u.socketID ≠ some socketId)) ∧
      (∀ u ∈ users, u.socketID ≠ some socketId) ∧
      (∀ u ∈ room'.users, u.socketID ≠ some socketId → u ∈ users) := by
  obtain ⟨room, room', userId, name, hf, hid, heq⟩ :=
    handleJoinRoom_ok_shape socketId p rand store role users h
  rw [heq] at h ⊢
  simp only [finishJoin, JoinAck.ok.injEq] at h
  obtain ⟨_, hus⟩ := h
  have hfilter : users = room'.users.filter (fun u => decide (u.socketID ≠ some socketId)) := by
    rw [← hus]
    congr 1
    funext u
    by_cases hx : u.socketID = some socketId <;> simp [hx]
  refine ⟨room', findOne_saveFound room' hf hid, hfilter, ?_, ?_⟩
  · intro u hu
    rw [hfilter] at hu
    simpa using (List.mem_filter.mp hu).2
  · intro u hu hne
    rw [hfilter]
    exact List.mem_filter.mpr ⟨hu, by simpa using hne⟩

theorem join_existingUsers_witness :
    (handleJoinRoom "c1" ⟨"r", some "p1", "", none⟩ zeroRand
      [⟨"r", [⟨"h", none, none, "host", none⟩,
              ⟨"g", some "c1", some "p0", "guest", some "Bob"⟩]⟩]).ack
      = .ok "guest" [⟨"h", none, none, "host", none⟩] ∧
    ∃ room' : Room,
      findOne (⟨"r", some "p1", "", none⟩ : JoinPayload).roomID
        (handleJoinRoom "c1" ⟨"r", some "p1", "", none⟩ zeroRand
          [⟨"r", [⟨"h", none, none, "host", none⟩,
                  ⟨"g", some "c1", some "p0", "guest", some "Bob"⟩]⟩]).store = some room' ∧
      [(⟨"h", none, none, "host", none⟩ : User)]
        = room'.users.filter (fun u => decide (u.socketID ≠ some "c1")) ∧
      (∀ u ∈ [(⟨"h", none, none, "host", none⟩ : User)], u.socketID ≠ some "c1") ∧
      (∀ u ∈ room'.users, u.socketID ≠ some "c1" →
        u ∈ [(⟨"h", none, none, "host", none⟩ : User)]) :=
  ⟨by decide,
   join_existingUsers "c1" ⟨"r", some "p1", "", none⟩ zeroRand
    [⟨"r", [⟨"h", none, none, "host", none⟩, ⟨"g", some "c1", some "p0", "guest", some "Bob"⟩]⟩]
    "guest" [⟨"h", none, none, "host", none⟩] (by decide)⟩

/-- C5: a join is refused in exactly two cases: with `Room does not exist`
when no stored room has the requested id, and with `Invalid userId` when the
room exists, `userId` is non-empty and no user of the room has it.  A refused
join leaves the store unchanged and performs no gateway call (no
`socket.join`, no `user-joined`); in every other case the join is
acknowledged with a role and a user list. -/
theorem join_failure_cases (socketId : String) (p : JoinPayload) (rand : Nat → Draw)
    (store : Store) :
    ((handleJoinRoom socketId p rand store).ack = .error "Room does not exist" ↔
      findOne p.roomID store = none) ∧
    ((handleJoinRoom socketId p rand store).ack = .error "Invalid userId" ↔
      ∃ room, findOne p.roomID store = some room ∧ p.userId ≠ "" ∧
        ∀ u ∈ room.users, u.userId ≠ p.userId) ∧
    (∀ msg, (handleJoinRoom socketId p rand store).ack = .error msg →
      (msg = "Room does not exist" ∨ msg = "Invalid userId") ∧
      (handleJoinRoom socketId p rand store).store = store ∧
      (handleJoinRoom socketId p rand store).effects = []) ∧
    (findOne p.roomID store ≠ none →
      ¬ (∃ room, findOne p.roomID store = some room ∧ p.userId ≠ "" ∧
          ∀ u ∈ room.users, u.userId ≠ p.userId) →
      ∃ role users, (handleJoinRoom socketId p rand store).ack = .ok role users) := by
  unfold handleJoinRoom
  cases hf : findOne p.roomID store with
  | none => simp
  | some room =>
    by_cases hu : p.userId = ""
    · simp [hu, finishJoin]
    · have hb : (p.userId != "") = true := by simpa using hu
      cases hfu : room.users.find? (fun u => u.userId == p.userId) with
      | none =>
        have hall := find?_userId_none.mp hfu
        simp only [hb, if_true, hfu]
        refine ⟨by simp, by simp [hu]; exact hall, ?_, ?_⟩
        · intro msg hmsg
          simp only [JoinAck.error.injEq] at hmsg
          simp [← hmsg]
        · intro _ hnot
          exact absurd ⟨room, rfl, hu, hall⟩ hnot
      | some user =>
        have hmem : ∃ u ∈ room.users, u.userId = p.userId :=
          ⟨user, List.mem_of_find?_eq_some hfu, by simpa using List.find?_some hfu⟩
        simp only [hb, if_true, hfu, finishJoin]
        refine ⟨by simp, ?_, by simp, ?_⟩
        · constructor
          · intro h; simp at h
          · rintro ⟨r, hr, _, hall⟩
            simp only [Option.some.injEq] at hr
            subst hr
            obtain ⟨u, hu1, hu2⟩ := hmem
            exact absurd hu2 (hall u hu1)
        · intro _ _
          exact ⟨_, _, rfl⟩

/-- C8: new-guest path.  When the room exists and `userId` is empty, the join
is acknowledged with role `guest` and the saved room holds the old users, in
order and unchanged, followed by exactly one new user: a guest with the
supplied peer id, the caller's socket id, the generated user id, and as name
the supplied one, or `Guest N` (N the number of users before the append) when
the name is absent or empty. -/
theorem join_new_guest (socketId : String) (p : JoinPayload) (rand : Nat → Draw)
    (store : Store) (room : Room)
    (hroom : findOne p.roomID store = some room)
    (hempty : p.userId = "") :
    ∃ (users : List User) (newUser : User),
      (handleJoinRoom socketId p rand store).ack = .ok "guest" users ∧
      findOne p.roomID (handleJoinRoom socketId p rand store).store =
        some ⟨room.roomID, room.users ++ [newUser]⟩ ∧
      newUser.type = "guest" ∧
      newUser.peerID = p.peerID ∧
      newUser.socketID = some socketId ∧
      newUser.userId = generateId rand ∧
      newUser.name =
        (if p.name = none ∨ p.name = some "" then
          some ("Guest " ++ toString room.users.length)
        else p.name) := by
  have hid := findOne_roomID hroom
  have hname : (if (p.userId == "" && nameMissing p.name) = true then
      some ("Guest " ++ toString room.users.length) else p.name) =
      (if p.name = none ∨ p.name = some "" then
        some ("Guest " ++ toString room.users.length) else p.name) := by
    cases hn : p.name with
    | none => simp [hempty, nameMissing]
    | some s => simp [hempty, nameMissing]
  refine ⟨(room.users ++ [(⟨generateId rand, some socketId, p.peerID, "guest",
      if p.name = none ∨ p.name = some "" then
        some ("Guest " ++ toString room.users.length) else p.name⟩ : User)]).filter
      (fun user => user.socketID != some socketId),
    ⟨generateId rand, some socketId, p.peerID, "guest",
      if p.name = none ∨ p.name = some "" then
        some ("Guest " ++ toString room.users.length) else p.name⟩,
    ?_, ?_, rfl, rfl, rfl, rfl, rfl⟩
  · rw [← hname]
    simp only [handleJoinRoom, hroom, hempty, bne_self_eq_false, Bool.false_eq_true, if_false,
      finishJoin]
  · rw [← hname]
    simp only [handleJoinRoom, hroom, hempty, bne_self_eq_false, Bool.false_eq_true, if_false,
      finishJoin]
    exact findOne_saveFound _ hroom hid

theorem join_new_guest_witness :
    ∃ (users : List User) (newUser : User),
      (handleJoinRoom "c1" ⟨"r", some "p1", "", some ""⟩ halfRand
        [⟨"r", [⟨"h", none, none, "host", none⟩]⟩]).ack = .ok "guest" users ∧
      findOne (⟨"r", some "p1", "", some ""⟩ : JoinPayload).roomID
        (handleJoinRoom "c1" ⟨"r", some "p1", "", some ""⟩ halfRand
          [⟨"r", [⟨"h", none, none, "host", none⟩]⟩]).store =
        some ⟨"r", [(⟨"h", none, none, "host", none⟩ : User)] ++ [newUser]⟩ ∧
      newUser.type = "guest" ∧
      newUser.peerID = some "p1" ∧
      newUser.socketID = some "c1" ∧
      newUser.userId = generateId halfRand ∧
      newUser.name =
        (if (⟨"r", some "p1", "", some ""⟩ : JoinPayload).name = none ∨
            (⟨"r", some "p1", "", some ""⟩ : JoinPayload).name = some "" then
          some ("Guest " ++ toString
            (⟨"r", [⟨"h", none, none, "host", none⟩]⟩ : Room).users.length)
        else (⟨"r", some "p1", "", some ""⟩ : JoinPayload).name) :=
  join_new_guest "c1" ⟨"r", some "p1", "", some ""⟩ halfRand
    [⟨"r", [⟨"h", none, none, "host", none⟩]⟩] ⟨"r", [⟨"h", none, none, "host", none⟩]⟩
    (by decide) rfl

/-! ## Disconnecting -/

theorem find?_socket_none {c : String} {users : List User}
    (h : ∀ u ∈ users, u.socketID ≠ some c) :
    users.find? (fun user => user.socketID == some c) = none := by
  simpa [List.find?_eq_none] using h

theorem find?_socket_some {c : String} {users : List User}
    (h : ∃ u ∈ users, u.socketID = some c) :
    ∃ du, users.find? (fun user => user.socketID == some c) = some du ∧
      du ∈ users ∧ du.socketID = some c := by
  cases hf : users.find? (fun user => user.socketID == some c) with
  | none =>
    obtain ⟨u, hu, hc⟩ := h
    have := List.find?_eq_none.mp hf u hu
    simp [hc] at this
  | some du =>
    exact ⟨du, rfl, List.mem_of_find?_eq_some hf, by simpa using List.find?_some hf⟩

theorem disconnectLoop_skip (c : String) (db : Store) (mid rest : List Room) (idx : Nat)
    (h : ∀ r ∈ mid, ∀ u ∈ r.users, u.socketID ≠ some c) :
    disconnectLoop c db (mid ++ rest) idx = disconnectLoop c db rest (idx + mid.length) := by
  induction mid generalizing idx with
  | nil => simp
  | cons r t ih =>
    have hr := find?_socket_none (h r (List.mem_cons_self _ _))
    have ht : ∀ r ∈ t, ∀ u ∈ r.users, u.socketID ≠ some c :=
      fun r' hr' => h r' (List.mem_cons_of_mem _ hr')
    have : idx + 1 + t.length = idx + (t.length + 1) := by omega
    simp only [List.cons_append, disconnectLoop, hr, List.length_cons]
    rw [← this]
    exact ih (idx + 1) ht

/-- A disconnect of a socket that no stored user holds changes nothing and
emits nothing. -/
theorem handleDisconnect_absent (c : String) (store : Store)
    (h : ∀ r ∈ store, ∀ u ∈ r.users, u.socketID ≠ some c) :
    handleDisconnect c store = (store, []) := by
  have := disconnectLoop_skip c store store [] 0 h
  simpa [handleDisconnect, disconnectLoop] using this

/-- What a disconnect does when `room` is the first room in scan order that
holds a user with socket id `c`. -/
theorem handleDisconnect_first (c : String) (pre : List Room) (room : Room) (post : List Room)
    (du : User)
    (hpre : ∀ r ∈ pre, ∀ u ∈ r.users, u.socketID ≠ some c)
    (hdu : room.users.find? (fun user => user.socketID == some c) = some du) :
    handleDisconnect c (pre ++ room :: post) =
      (if (room.users.filter fun user => user.socketID != some c) = [] then
          deleteOne room.roomID (pre ++ room :: post)
        else
          pre ++ ⟨room.roomID, room.users.filter fun user => user.socketID != some c⟩ :: post,
       [Effect.toRoomExcept room.roomID c (.userDisconnected du.peerID)]) := by
  unfold handleDisconnect
  rw [disconnectLoop_skip c _ pre (room :: post) 0 hpre]
  simp only [disconnectLoop, hdu, Nat.zero_add]
  by_cases he : (room.users.filter fun user => user.socketID != some c) = []
  · simp [he]
  · have hlen : ((room.users.filter fun user => user.socketID != some c).length == 0) = false := by
      simpa using he
    simp only [hlen, he, if_false, Bool.false_eq_true]
    congr 1
    simp

theorem deleteOne_of_first (room : Room) (pre post : List Room)
    (h : ∀ r ∈ pre, r.roomID ≠ room.roomID) :
    deleteOne room.roomID (pre ++ room :: post) = pre ++ post := by
  induction pre with
  | nil => simp [deleteOne]
  | cons a t ih =>
    have ha : a.roomID ≠ room.roomID := h a (List.mem_cons_self _ _)
    have ht : ∀ r ∈ t, r.roomID ≠ room.roomID := fun r hr => h r (List.mem_cons_of_mem _ hr)
    simp [deleteOne, ha, ih ht]

theorem nodup_roomIDs_split {pre post : List Room} {room : Room}
    (h : ((pre ++ room :: post).map Room.roomID).Nodup) :
    (∀ r ∈ pre, r.roomID ≠ room.roomID) ∧ (∀ r ∈ post, r.roomID ≠ room.roomID) := by
  rw [List.map_append, List.map_cons] at h
  have h1 := List.nodup_append.mp h
  have h2 := List.nodup_cons.mp h1.2.1
  refine ⟨fun r hr heq => ?_, fun r hr heq => ?_⟩
  · exact h1.2.2 (List.mem_map.mpr ⟨r, hr, heq⟩) (List.mem_cons_self _ _)
  · exact h2.1 (List.mem_map.mpr ⟨r, hr, heq⟩)

theorem findOne_eq_none_of_forall {roomID : String} {store : Store}
    (h : ∀ r ∈ store, r.roomID ≠ roomID) : findOne roomID store = none := by
  simpa [findOne, List.find?_eq_none] using h

theorem findOne_of_first (roomID : String) (pre post : List Room) (room : Room)
    (hpre : ∀ r ∈ pre, r.roomID ≠ roomID) (hid : room.roomID = roomID) :
    findOne roomID (pre ++ room :: post) = some room := by
  unfold findOne
  rw [List.find?_append, List.find?_eq_none.mpr (by simpa using hpre)]
  simp [hid]

/-! ## Room ids stay pairwise distinct -/

theorem map_roomID_saveFound {roomID : String} {room : Room} (store : Store)
    (hid : room.roomID = roomID) :
    (saveFound roomID room store).map Room.roomID = store.map Room.roomID := by
  induction store with
  | nil => rfl
  | cons a t ih =>
    by_cases ha : a.roomID = roomID
    · simp [saveFound, ha, hid]
    · simp [saveFound, ha, ih]

theorem deleteOne_sublist (roomID : String) (store : Store) :
    (deleteOne roomID store).Sublist store := by
  induction store with
  | nil => exact List.Sublist.refl _
  | cons a t ih =>
    by_cases ha : a.roomID = roomID
    · simp [deleteOne, ha]
    · simpa [deleteOne, ha] using ih

theorem createRoom_roomIDs_nodup (rand : Nat → Draw) (store : Store)
    (h : (store.map Room.roomID).Nodup) :
    ((createRoom rand store).store.map Room.roomID).Nodup := by
  unfold createRoom
  cases hf : findOne (generateId rand) store with
  | some r => simpa [hf] using h
  | none =>
    have hall : ∀ r ∈ store, r.roomID ≠ generateId rand := by
      simpa [findOne, List.find?_eq_none] using hf
    simp only [hf, List.map_append, List.map_cons, List.map_nil]
    refine List.nodup_append.mpr ⟨h, List.nodup_singleton _, ?_⟩
    intro x hx hx'
    obtain ⟨r, hr, rfl⟩ := List.mem_map.mp hx
    exact hall r hr (List.mem_singleton.mp hx')

theorem handleJoinRoom_roomIDs (socketId : String) (p : JoinPayload) (rand : Nat → Draw)
    (store : Store) :
    (handleJoinRoom socketId p rand store).store.map Room.roomID = store.map Room.roomID := by
  unfold handleJoinRoom
  cases hf : findOne p.roomID store with
  | none => rfl
  | some room =>
    have hid := findOne_roomID hf
    by_cases hu : p.userId = ""
    · simp only [hu, bne_self_eq_false, Bool.false_eq_true, if_false, finishJoin]
      exact map_roomID_saveFound store hid
    · have hb : (p.userId != "") = true := by simpa using hu
      simp only [hb, if_true]
      cases hfu : room.users.find? (fun u => u.userId == p.userId) with
      | none => rfl
      | some user =>
        simp only [finishJoin]
        exact map_roomID_saveFound store hid

theorem disconnectLoop_roomIDs_sublist (c : String) (db : Store) (rooms pre : List Room)
    (hdb : db = pre ++ rooms) :
    ((disconnectLoop c db rooms pre.length).1.map Room.roomID).Sublist (db.map Room.roomID) := by
  induction rooms generalizing pre with
  | nil => simp [disconnectLoop]
  | cons room rest ih =>
    unfold disconnectLoop
    cases hf : room.users.find? (fun user => user.socketID == some c) with
    | none =>
      have := ih (pre ++ [room]) (by simp [hdb])
      simpa using this
    | some du =>
      by_cases he : ((room.users.filter fun user => user.socketID != some c).length == 0) = true
      · simp only [he, if_true]
        exact (deleteOne_sublist room.roomID db).map _
      · simp only [he, if_false]
        subst hdb
        simp

theorem step_roomIDs_nodup (store : Store) (op : Op) (h : (store.map Room.roomID).Nodup) :
    ((step store op).map Room.roomID).Nodup := by
  cases op with
  | createRoom rand => exact createRoom_roomIDs_nodup rand store h
  | joinRoom socketId p rand =>
    simp only [step]
    rw [handleJoinRoom_roomIDs]
    exact h
  | chatMessage socketId p =>
    simp only [step, handleChat]
    cases findOne p.roomID store <;> exact h
  | muteUser roomID targetUserId =>
    simp only [step, handleMuteUser]
    cases findOne roomID store with
    | none => exact h
    | some room =>
      simp only []
      cases room.users.find? (fun user => user.userId == targetUserId) <;> exact h
  | disconnect socketId =>
    exact (disconnectLoop_roomIDs_sublist socketId store store [] rfl).nodup h

/-- In every run from a store with pairwise distinct room ids, room ids stay
pairwise distinct; in particular this holds for every store reached from the
empty one. -/
theorem run_roomIDs_nodup (ops : List Op) (store : Store) (h : (store.map Room.roomID).Nodup) :
    ((run store ops).map Room.roomID).Nodup := by
  induction ops generalizing store with
  | nil => exact h
  | cons op t ih => exact ih (step store op) (step_roomIDs_nodup store op h)

/-- C9: in a store with pairwise distinct room ids, let `room` be the first
room in scan order holding a user with socket id `c`.  Then `disconnect` on
`c` emits exactly one `user-disconnected` event, carrying the peer id of the
(first) user of `room` with socket id `c`, to the group of `room` excluding
`c`; the remaining users are the users of `room` with another socket id,
unchanged and in their original order, none of them with socket id `c`; when
none remains the room is deleted from the store (no room has its id
afterwards), otherwise the room is stored in place with the remaining users;
all other rooms are as they were. -/
theorem disconnect_removes_user (c : String) (store : Store) (pre : List Room) (room : Room)
    (post : List Room)
    (hstore : store = pre ++ room :: post)
    (hpre : ∀ r ∈ pre, ∀ u ∈ r.users, u.socketID ≠ some c)
    (hroom : ∃ u ∈ room.users, u.socketID = some c)
    (hids : (store.map Room.roomID).Nodup) :
    ∃ (removed : User) (remaining : List User),
      room.users.find? (fun u => decide (u.socketID = some c)) = some removed ∧
      removed.socketID = some c ∧
      remaining = room.users.filter (fun u => decide (u.socketID ≠ some c)) ∧
      (∀ u ∈ remaining, u.socketID ≠ some c) ∧
      (handleDisconnect c store).2 =
        [Effect.toRoomExcept room.roomID c (.userDisconnected removed.peerID)] ∧
      (remaining = [] →
        (handleDisconnect c store).1 = pre ++ post ∧
        findOne room.roomID (handleDisconnect c store).1 = none) ∧
      (remaining ≠ [] →
        (handleDisconnect c store).1 = pre ++ ⟨room.roomID, remaining⟩ :: post ∧
        findOne room.roomID (handleDisconnect c store).1 = some ⟨room.roomID, remaining⟩) := by
  subst hstore
  obtain ⟨du, hdu, _, hduc⟩ := find?_socket_some hroom
  obtain ⟨hidpre, hidpost⟩ := nodup_roomIDs_split hids
  have hfun : (fun u : User => decide (u.socketID = some c)) =
      (fun user => user.socketID == some c) := by
    funext u; by_cases hx : u.socketID = some c <;> simp [hx]
  have hfun' : (fun u : User => decide (u.socketID ≠ some c)) =
      (fun user => user.socketID != some c) := by
    funext u; by_cases hx : u.socketID = some c <;> simp [hx]
  refine ⟨du, room.users.filter (fun user => user.socketID != some c),
    by rw [hfun]; exact hdu, hduc, by rw [hfun'], ?_, ?_, ?_, ?_⟩
  · intro u hu
    simpa using (List.mem_filter.mp hu).2
  · rw [handleDisconnect_first c pre room post du hpre hdu]
  · intro hempty
    rw [handleDisconnect_first c pre room post du hpre hdu]
    simp only [hempty, if_true, deleteOne_of_first room pre post hidpre]
    refine ⟨trivial, findOne_eq_none_of_forall ?_⟩
    intro r hr
    rcases List.mem_append.mp hr with hr | hr
    · exact hidpre r hr
    · exact hidpost r hr
  · intro hne
    rw [handleDisconnect_first c pre room post du hpre hdu]
    simp only [hne, if_false]
    exact ⟨trivial, findOne_of_first room.roomID pre post _ hidpre rfl⟩

theorem disconnect_removes_user_witness :
    ∃ (removed : User) (remaining : List User),
      (⟨"r", [⟨"h", some "c0", some "p0", "host", none⟩,
              ⟨"g", some "c1", some "p1", "guest", some "Bob"⟩]⟩ : Room).users.find?
        (fun u => decide (u.socketID = some "c1")) = some removed ∧
      removed.socketID = some "c1" ∧
      remaining = (⟨"r", [⟨"h", some "c0", some "p0", "host", none⟩,
              ⟨"g", some "c1", some "p1", "guest", some "Bob"⟩]⟩ : Room).users.filter
        (fun u => decide (u.socketID ≠ some "c1")) ∧
      (∀ u ∈ remaining, u.socketID ≠ some "c1") ∧
      (handleDisconnect "c1"
        [⟨"q", [⟨"x", none, none, "host", none⟩]⟩,
         ⟨"r", [⟨"h", some "c0", some "p0", "host", none⟩,
                ⟨"g", some "c1", some "p1", "guest", some "Bob"⟩]⟩]).2 =
        [Effect.toRoomExcept "r" "c1" (.userDisconnected removed.peerID)] ∧
      (remaining = [] →
        (handleDisconnect "c1"
          [⟨"q", [⟨"x", none, none, "host", none⟩]⟩,
           ⟨"r", [⟨"h", some "c0", some "p0", "host", none⟩,
                  ⟨"g", some "c1", some "p1", "guest", some "Bob"⟩]⟩]).1 =
          [⟨"q", [⟨"x", none, none, "host", none⟩]⟩] ++ [] ∧
        findOne "r" (handleDisconnect "c1"
          [⟨"q", [⟨"x", none, none, "host", none⟩]⟩,
           ⟨"r", [⟨"h", some "c0", some "p0", "host", none⟩,
                  ⟨"g", some "c1", some "p1", "guest", some "Bob"⟩]⟩]).1 = none) ∧
      (remaining ≠ [] →
        (handleDisconnect "c1"
          [⟨"q", [⟨"x", none, none, "host", none⟩]⟩,
           ⟨"r", [⟨"h", some "c0", some "p0", "host", none⟩,
                  ⟨"g", some "c1", some "p1", "guest", some "Bob"⟩]⟩]).1 =
          [⟨"q", [⟨"x", none, none, "host", none⟩]⟩] ++ ⟨"r", remaining⟩ :: [] ∧
        findOne "r" (handleDisconnect "c1"
          [⟨"q", [⟨"x", none, none, "host", none⟩]⟩,
           ⟨"r", [⟨"h", some "c0", some "p0", "host", none⟩,
                  ⟨"g", some "c1", some "p1", "guest", some "Bob"⟩]⟩]).1
          = some ⟨"r", remaining⟩) :=
  disconnect_removes_user "c1"
    [⟨"q", [⟨"x", none, none, "host", none⟩]⟩,
     ⟨"r", [⟨"h", some "c0", some "p0", "host", none⟩,
            ⟨"g", some "c1", some "p1", "guest", some "Bob"⟩]⟩]
    [⟨"q", [⟨"x", none, none, "host", none⟩]⟩]
    ⟨"r", [⟨"h", some "c0", some "p0", "host", none⟩,
           ⟨"g", some "c1", some "p1", "guest", some "Bob"⟩]⟩
    [] rfl (by decide) (by decide) (by decide)

/-! ## No empty room is retained -/

theorem mem_saveFound {roomID : String} {room x : Room} {store : Store}
    (h : x ∈ saveFound roomID room store) : x = room ∨ x ∈ store := by
  induction store with
  | nil => simp [saveFound] at h
  | cons a t ih =>
    by_cases ha : a.roomID = roomID
    · simp only [saveFound, ha, beq_self_eq_true, if_true, List.mem_cons] at h
      rcases h with h | h
      · exact Or.inl h
      · exact Or.inr (List.mem_cons_of_mem _ h)
    · have hb : (a.roomID == roomID) = false := by simpa using ha
      simp only [saveFound, hb, Bool.false_eq_true, if_false, List.mem_cons] at h
      rcases h with h | h
      · exact Or.inr (h ▸ List.mem_cons_self _ _)
      · rcases ih h with h | h
        · exact Or.inl h
        · exact Or.inr (List.mem_cons_of_mem _ h)

theorem mem_deleteOne {roomID : String} {x : Room} {store : Store}
    (h : x ∈ deleteOne roomID store) : x ∈ store := by
  induction store with
  | nil => simp [deleteOne] at h
  | cons a t ih =>
    by_cases ha : a.roomID = roomID
    · simp only [deleteOne, ha, beq_self_eq_true, if_true] at h
      exact List.mem_cons_of_mem _ h
    · have hb : (a.roomID == roomID) = false := by simpa using ha
      simp only [deleteOne, hb, Bool.false_eq_true, if_false, List.mem_cons] at h
      rcases h with h | h
      · exact h ▸ List.mem_cons_self _ _
      · exact List.mem_cons_of_mem _ (ih h)

theorem reconnectUser_ne_nil (userId socketId : String) (peerID name : Option String)
    (users : List User) (h : users ≠ []) :
    reconnectUser userId socketId peerID name users ≠ [] := by
  cases users with
  | nil => exact absurd rfl h
  | cons a t =>
    by_cases ha : a.userId = userId <;> simp [reconnectUser, ha]

theorem createRoom_nonempty (rand : Nat → Draw) (store : Store) (h : RoomsNonempty store) :
    RoomsNonempty (createRoom rand store).store := by
  unfold createRoom
  cases hf : findOne (generateId rand) store with
  | some r => simpa [hf] using h
  | none =>
    intro r hr
    simp only [hf, List.mem_append, List.mem_singleton] at hr
    rcases hr with hr | hr
    · exact h r hr
    · subst hr; simp

theorem handleJoinRoom_nonempty (socketId : String) (p : JoinPayload) (rand : Nat → Draw)
    (store : Store) (h : RoomsNonempty store) :
    RoomsNonempty (handleJoinRoom socketId p rand store).store := by
  unfold handleJoinRoom
  cases hf : findOne p.roomID store with
  | none => simpa using h
  | some room =>
    have hroom : room.users ≠ [] := h room (findOne_mem hf)
    by_cases hu : p.userId = ""
    · simp only [hu, bne_self_eq_false, Bool.false_eq_true, if_false, finishJoin]
      intro r hr
      rcases mem_saveFound hr with hr | hr
      · subst hr; simp
      · exact h r hr
    · have hb : (p.userId != "") = true := by simpa using hu
      simp only [hb, if_true]
      cases hfu : room.users.find? (fun u => u.userId == p.userId) with
      | none => simpa using h
      | some user =>
        simp only [finishJoin]
        intro r hr
        rcases mem_saveFound hr with hr | hr
        · subst hr
          exact reconnectUser_ne_nil _ _ _ _ _ hroom
        · exact h r hr

theorem disconnectLoop_nonempty (c : String) (db : Store) (h : RoomsNonempty db)
    (rooms : List Room) (idx : Nat) : RoomsNonempty (disconnectLoop c db rooms idx).1 := by
  induction rooms generalizing idx with
  | nil => simpa [disconnectLoop] using h
  | cons room rest ih =>
    unfold disconnectLoop
    cases hf : room.users.find? (fun user => user.socketID == some c) with
    | none => simpa using ih (idx + 1)
    | some du =>
      by_cases he : ((room.users.filter fun user => user.socketID != some c).length == 0) = true
      · simp only [he, if_true]
        intro r hr
        exact h r (mem_deleteOne hr)
      · simp only [he, if_false]
        intro r hr
        rcases List.mem_or_eq_of_mem_set hr with hr | hr
        · exact h r hr
        · subst hr
          simpa using he

theorem step_nonempty (store : Store) (op : Op) (h : RoomsNonempty store) :
    RoomsNonempty (step store op) := by
  cases op with
  | createRoom rand => exact createRoom_nonempty rand store h
  | joinRoom socketId p rand => exact handleJoinRoom_nonempty socketId p rand store h
  | chatMessage socketId p =>
    simp only [step, handleChat]
    cases findOne p.roomID store <;> exact h
  | muteUser roomID targetUserId =>
    simp only [step, handleMuteUser]
    cases findOne roomID store with
    | none => exact h
    | some room =>
      simp only []
      cases room.users.find? (fun user => user.userId == targetUserId) <;> exact h
  | disconnect socketId => exact disconnectLoop_nonempty socketId store h store 0

theorem run_nonempty (ops : List Op) (store : Store) (h : RoomsNonempty store) :
    RoomsNonempty (run store ops) := by
  induction ops generalizing store with
  | nil => exact h
  | cons op t ih => exact ih (step store op) (step_nonempty store op h)

/-- C10: in every store reached from the empty store by any sequence of
create-room, join-room, chat-message, mute-user and disconnect operations run
one at a time, every stored room has at least one user. -/
theorem reachable_rooms_nonempty (ops : List Op) (room : Room) (h : room ∈ run [] ops) :
    1 ≤ room.users.length := by
  have hinv : RoomsNonempty (run [] ops) := run_nonempty ops [] (by intro r hr; simp at hr)
  exact List.length_pos.mpr (hinv room h)

theorem reachable_rooms_nonempty_witness :
    (⟨"aaaaaaaaa", [⟨"aaaaaaaaa", some "c1", none, "host", none⟩]⟩ : Room) ∈
      run [] [Op.createRoom zeroRand, Op.joinRoom "c1" ⟨"aaaaaaaaa", none, "aaaaaaaaa", none⟩
        zeroRand, Op.disconnect "c2", Op.createRoom zeroRand] ∧
    1 ≤ (⟨"aaaaaaaaa", [⟨"aaaaaaaaa", some "c1", none, "host", none⟩]⟩ : Room).users.length :=
  ⟨by decide, reachable_rooms_nonempty
    [Op.createRoom zeroRand, Op.joinRoom "c1" ⟨"aaaaaaaaa", none, "aaaaaaaaa", none⟩
        zeroRand, Op.disconnect "c2", Op.createRoom zeroRand] _ (by decide)⟩

/-! ## Joining again after a disconnect -/

/-- The store left by a disconnect, in a store with pairwise distinct room
ids whose first room holding socket id `c` is `room`. -/
theorem handleDisconnect_store (c : String) (pre : List Room) (room : Room) (post : List Room)
    (hpre : ∀ r ∈ pre, ∀ u ∈ r.users, u.socketID ≠ some c)
    (hroom : ∃ u ∈ room.users, u.socketID = some c)
    (hids : ((pre ++ room :: post).map Room.roomID).Nodup) :
    (handleDisconnect c (pre ++ room :: post)).1 =
      if (room.users.filter fun user => user.socketID != some c) = [] then pre ++ post
      else pre ++ ⟨room.roomID, room.users.filter fun user => user.socketID != some c⟩ :: post := by
  obtain ⟨du, hdu, _, _⟩ := find?_socket_some hroom
  rw [handleDisconnect_first c pre room post du hpre hdu]
  by_cases he : (room.users.filter fun user => user.socketID != some c) = []
  · simp only [he, if_true]
    exact deleteOne_of_first room pre post (nodup_roomIDs_split hids).1
  · simp only [he, if_false]

/-- C2 (as the code behaves): in a store with pairwise distinct room ids, let
`room` be the first room in scan order holding socket id `c`, with pairwise
distinct user ids, and `A` a user of it with socket id `c` and a non-empty
user id.  After `disconnect` on `c` the record of `A` is gone from the store,
and a join with the same room id and the user id of `A`, from any socket, is
refused: with `Room does not exist` when `A` was the last user of the room
(the room was deleted), with `Invalid userId` otherwise; that join leaves the
store as the disconnect left it. -/
theorem rejoin_after_disconnect_refused (c : String) (store : Store) (pre : List Room)
    (room : Room) (post : List Room) (A : User)
    (hstore : store = pre ++ room :: post)
    (hpre : ∀ r ∈ pre, ∀ u ∈ r.users, u.socketID ≠ some c)
    (hids : (store.map Room.roomID).Nodup)
    (hA : A ∈ room.users) (hc : A.socketID = some c) (hne : A.userId ≠ "")
    (huniq : (room.users.map User.userId).Nodup)
    (c' : String) (peerID name : Option String) (rand : Nat → Draw) :
    (∀ r ∈ (handleDisconnect c store).1, r.roomID = room.roomID → A ∉ r.users) ∧
    (handleJoinRoom c' ⟨room.roomID, peerID, A.userId, name⟩ rand
        (handleDisconnect c store).1).ack =
      (if room.users.filter (fun u => decide (u.socketID ≠ some c)) = [] then
        JoinAck.error "Room does not exist"
      else JoinAck.error "Invalid userId") ∧
    (handleJoinRoom c' ⟨room.roomID, peerID, A.userId, name⟩ rand
        (handleDisconnect c store).1).store = (handleDisconnect c store).1 := by
  subst hstore
  have hfun' : (fun u : User => decide (u.socketID ≠ some c)) =
      (fun user => user.socketID != some c) := by
    funext u; by_cases hx : u.socketID = some c <;> simp [hx]
  obtain ⟨hidpre, hidpost⟩ := nodup_roomIDs_split hids
  have hst := handleDisconnect_store c pre room post hpre ⟨A, hA, hc⟩ hids
  have hgone : ∀ u ∈ room.users.filter (fun user => user.socketID != some c),
      u.userId ≠ A.userId := by
    intro u hu heq
    have hmem := (List.mem_filter.mp hu).1
    have hua : u = A := List.inj_on_of_nodup_map huniq hmem hA heq
    have hsock := (List.mem_filter.mp hu).2
    rw [hua] at hsock
    simp [hc] at hsock
  rw [hst, hfun']
  by_cases he : (room.users.filter fun user => user.socketID != some c) = []
  · have hnone : findOne room.roomID (pre ++ post) = none := by
      apply findOne_eq_none_of_forall
      intro r hr
      rcases List.mem_append.mp hr with hr | hr
      · exact hidpre r hr
      · exact hidpost r hr
    simp only [he, if_true]
    refine ⟨?_, by simp [handleJoinRoom, hnone], by simp [handleJoinRoom, hnone]⟩
    intro r hr hid
    rcases List.mem_append.mp hr with hr | hr
    · exact absurd hid (hidpre r hr)
    · exact absurd hid (hidpost r hr)
  · have hsome := findOne_of_first room.roomID pre post
      ⟨room.roomID, room.users.filter fun user => user.socketID != some c⟩ hidpre rfl
    have hfu := find?_userId_none.mpr hgone
    simp only [he, if_false]
    refine ⟨?_, by simp [handleJoinRoom, hsome, hne, hfu], by simp [handleJoinRoom, hsome, hne, hfu]⟩
    intro r hr hid hAr
    rcases List.mem_append.mp hr with hr | hr
    · exact absurd hid (hidpre r hr)
    · rcases List.mem_cons.mp hr with hr | hr
      · subst hr
        exact hgone A hAr rfl
      · exact absurd hid (hidpost r hr)

theorem rejoin_after_disconnect_refused_witness :
    (∀ r ∈ (handleDisconnect "cA" reconnectStore).1, r.roomID = reconnectRoom.roomID →
      reconnectGuest ∉ r.users) ∧
    (handleJoinRoom "cB" ⟨reconnectRoom.roomID, some "pB", reconnectGuest.userId, some "Ann"⟩
        zeroRand (handleDisconnect "cA" reconnectStore).1).ack =
      (if reconnectRoom.users.filter (fun u => decide (u.socketID ≠ some "cA")) = [] then
        JoinAck.error "Room does not exist"
      else JoinAck.error "Invalid userId") ∧
    (handleJoinRoom "cB" ⟨reconnectRoom.roomID, some "pB", reconnectGuest.userId, some "Ann"⟩
        zeroRand (handleDisconnect "cA" reconnectStore).1).store
      = (handleDisconnect "cA" reconnectStore).1 :=
  rejoin_after_disconnect_refused "cA" reconnectStore [] reconnectRoom [] reconnectGuest
    (by decide) (by decide) (by decide) (by decide) (by decide) (by decide) (by decide)
    "cB" (some "pB") (some "Ann") zeroRand

/-- C2 as stated fails: the store below is reached by creating a room, the
host joining on `cH` and a guest joining with an empty user id on `cA`.  The
guest is then in the room with role `guest` and socket id `cA`; after
`disconnect` on `cA`, joining again with the same room id and the user id of
the guest is not acknowledged with role `guest` but refused with
`Invalid userId`. -/
theorem reconnect_after_disconnect_counterexample :
    reconnectStore = [reconnectRoom] ∧
    reconnectGuest ∈ reconnectRoom.users ∧
    reconnectGuest.type = "guest" ∧
    reconnectGuest.socketID = some "cA" ∧
    (handleJoinRoom "cB" ⟨reconnectRoom.roomID, some "pB", reconnectGuest.userId, some "Ann"⟩
        zeroRand (handleDisconnect "cA" reconnectStore).1).ack = JoinAck.error "Invalid userId" ∧
    ¬ ∃ users, (handleJoinRoom "cB"
        ⟨reconnectRoom.roomID, some "pB", reconnectGuest.userId, some "Ann"⟩
        zeroRand (handleDisconnect "cA" reconnectStore).1).ack = JoinAck.ok "guest" users := by
  refine ⟨by decide, by decide, by decide, by decide, by decide, ?_⟩
  rintro ⟨users, h⟩
  have h' : (handleJoinRoom "cB"
      ⟨reconnectRoom.roomID, some "pB", reconnectGuest.userId, some "Ann"⟩
      zeroRand (handleDisconnect "cA" reconnectStore).1).ack = JoinAck.error "Invalid userId" := by
    decide
  rw [h'] at h
  exact JoinAck.noConfusion h

/-! ## The identifier generator -/

theorem charAt_chars_mem : ∀ i : Fin 36, ∀ c ∈ (charAt chars i.val).data, c ∈ chars.data := by
  decide

theorem mem_join_data (l : List String) (c : Char) (h : c ∈ (String.join l).data) :
    ∃ s ∈ l, c ∈ s.data := by
  have key : ∀ (l : List String) (acc : String),
      c ∈ (l.foldl (fun r s => r ++ s) acc).data → c ∈ acc.data ∨ ∃ s ∈ l, c ∈ s.data := by
    intro l
    induction l with
    | nil => intro acc hc; exact Or.inl (by simpa using hc)
    | cons a t ih =>
      intro acc hc
      rcases ih (acc ++ a) (by simpa using hc) with h1 | ⟨s, hs, hcs⟩
      · rw [String.data_append] at h1
        rcases List.mem_append.mp h1 with h1 | h1
        · exact Or.inl h1
        · exact Or.inr ⟨a, List.mem_cons_self _ _, h1⟩
      · exact Or.inr ⟨s, List.mem_cons_of_mem _ hs, hcs⟩
  rcases key l "" (by simpa [String.join] using h) with h1 | h1
  · simp at h1
  · exact h1

/-- C18: for every outcome of the randomness source (each draw a value in
`[0, 1)`), `generateId` returns a string of exactly nine characters, each of
them a character of the 36-character alphabet of lowercase letters and
digits; in particular the result is never empty. -/
theorem generateId_nine_alphanumeric (rand : Nat → Draw) :
    (generateId rand).length = 9 ∧
    (∀ c ∈ (generateId rand).data, c ∈ chars.data) ∧
    chars.data = "abcdefghijklmnopqrstuvwxyz1234567890".data ∧
    chars.length = 36 ∧
    generateId rand ≠ "" := by
  refine ⟨?_, ?_, rfl, by decide, ?_⟩
  · simp [generateId, length_join, List.range_succ, charAt_draw_length, Function.comp_def]
  · intro c hc
    obtain ⟨s, hs, hcs⟩ := mem_join_data _ c hc
    obtain ⟨i, _, rfl⟩ := List.mem_map.mp hs
    exact charAt_chars_mem ⟨drawIndex (rand i), drawIndex_lt (rand i)⟩ c hcs
  · intro h
    have hlen : (generateId rand).length = 9 := by
      simp [generateId, length_join, List.range_succ, charAt_draw_length, Function.comp_def]
    rw [h] at hlen
    exact absurd hlen (by decide)

/-! ## Room ids are unique -/

/-- C13: in every store reached from the empty store by any sequence of
create-room, join-room, chat-message, mute-user and disconnect operations run
one at a time, whatever the identifier generator returns, no two stored rooms
have the same room id. -/
theorem reachable_roomIDs_distinct (ops : List Op) :
    ((run [] ops).map Room.roomID).Nodup :=
  run_roomIDs_nodup ops [] List.nodup_nil

/-! ## Chat relay -/

/-- C16: a chat message from socket `c` emits exactly one `new-message` event
with the payload's sender, message and name, addressed to the group of the
room id excluding `c`, when a room with that id exists, and emits nothing
when none exists; in both cases the store is unchanged (the handler has no
acknowledgement and reports no error). -/
theorem chat_relay (c : String) (p : ChatPayload) (store : Store) :
    (findOne p.roomID store ≠ none →
      (handleChat c p store).2 =
        [Effect.toRoomExcept p.roomID c (.newMessage p.sender p.message p.name)]) ∧
    (findOne p.roomID store = none → (handleChat c p store).2 = []) ∧
    (handleChat c p store).1 = store := by
  unfold handleChat
  cases findOne p.roomID store <;> simp

/-! ## Frame of a disconnect -/

/-- C20: in a store with pairwise distinct room ids, `disconnect` on `c`
changes at most one room: when `room` is the first room in scan order holding
a user with socket id `c`, the rooms before it and the rooms after it are left
exactly as they were (also those after it that hold a user with socket id
`c`), and `room` itself is either dropped or replaced by one room; when no
room holds such a user the store is unchanged and no event is emitted. -/
theorem disconnect_frame (c : String) (store : Store)
    (hids : (store.map Room.roomID).Nodup) :
    ((∀ r ∈ store, ∀ u ∈ r.users, u.socketID ≠ some c) →
      handleDisconnect c store = (store, [])) ∧
    (∀ (pre : List Room) (room : Room) (post : List Room),
      store = pre ++ room :: post →
      (∀ r ∈ pre, ∀ u ∈ r.users, u.socketID ≠ some c) →
      (∃ u ∈ room.users, u.socketID = some c) →
      (handleDisconnect c store).1 = pre ++ post ∨
      ∃ room' : Room, room'.roomID = room.roomID ∧
        (handleDisconnect c store).1 = pre ++ room' :: post) := by
  refine ⟨handleDisconnect_absent c store, ?_⟩
  intro pre room post hstore hpre hroom
  subst hstore
  rw [handleDisconnect_store c pre room post hpre hroom hids]
  by_cases he : (room.users.filter fun user => user.socketID != some c) = []
  · exact Or.inl (by simp [he])
  · exact Or.inr ⟨⟨room.roomID, room.users.filter fun user => user.socketID != some c⟩, rfl,
      by simp [he]⟩

theorem disconnect_frame_witness :
    ((∀ r ∈ twoRoomStore, ∀ u ∈ r.users, u.socketID ≠ some "c1") →
      handleDisconnect "c1" twoRoomStore = (twoRoomStore, [])) ∧
    (∀ (pre : List Room) (room : Room) (post : List Room),
      twoRoomStore = pre ++ room :: post →
      (∀ r ∈ pre, ∀ u ∈ r.users, u.socketID ≠ some "c1") →
      (∃ u ∈ room.users, u.socketID = some "c1") →
      (handleDisconnect "c1" twoRoomStore).1 = pre ++ post ∨
      ∃ room' : Room, room'.roomID = room.roomID ∧
        (handleDisconnect "c1" twoRoomStore).1 = pre ++ room' :: post) :=
  disconnect_frame "c1" twoRoomStore (by decide)

/-! ## Colliding user ids -/

/-- C12 fails on the code: when the generator returns for a guest the
identifier it returned for the host, `join-room` stores the guest without any
existence check, and the room holds two users with the same user id. -/
theorem duplicate_userId_reachable :
    run [] collidingOps =
      [⟨"aaaaaaaaa", [⟨"aaaaaaaaa", none, none, "host", none⟩,
                      ⟨"aaaaaaaaa", some "c1", some "p1", "guest", some "Guest 1"⟩]⟩] ∧
    ¬ ∀ r ∈ run [] collidingOps, (r.users.map User.userId).Nodup := by
  refine ⟨by decide, ?_⟩
  intro h
  have h1 := h ⟨"aaaaaaaaa", [⟨"aaaaaaaaa", none, none, "host", none⟩,
    ⟨"aaaaaaaaa", some "c1", some "p1", "guest", some "Guest 1"⟩]⟩ (by decide)
  revert h1
  decide

/-! ## Muting -/

/-- C15: `mute-user` delivers a `muted` event exactly when the room exists,
it holds a user with the target user id (the one `find` returns) and that
user has a non-null socket id `c`; then exactly one `muted` event is sent, to
connection `c` alone.  When the room or the user is missing no gateway call
is made; when the user has a null socket id the single call is addressed to
null and reaches no connection.  The handler never changes the store and has
no error result. -/
theorem mute_delivery (roomID targetUserId : String) (store : Store) :
    (∀ c : String,
      mutedDeliveries (handleMuteUser roomID targetUserId store).2 = [c] ↔
        ∃ room u, findOne roomID store = some room ∧
          room.users.find? (fun user => user.userId == targetUserId) = some u ∧
          u.socketID = some c) ∧
    ((¬ ∃ room u c, findOne roomID store = some room ∧
          room.users.find? (fun user => user.userId == targetUserId) = some u ∧
          u.socketID = some c) →
      mutedDeliveries (handleMuteUser roomID targetUserId store).2 = []) ∧
    (∀ room u, findOne roomID store = some room →
      room.users.find? (fun user => user.userId == targetUserId) = some u →
      (handleMuteUser roomID targetUserId store).2 = [Effect.toSocket u.socketID .muted]) ∧
    ((findOne roomID store = none ∨
        ∃ room, findOne roomID store = some room ∧ ∀ u ∈ room.users, u.userId ≠ targetUserId) →
      (handleMuteUser roomID targetUserId store).2 = []) ∧
    (handleMuteUser roomID targetUserId store).1 = store := by
  cases hf : findOne roomID store with
  | none =>
    have heq : handleMuteUser roomID targetUserId store = (store, []) := by
      simp [handleMuteUser, hf]
    rw [heq]
    simp [mutedDeliveries]
  | some room =>
    cases hfu : room.users.find? (fun user => user.userId == targetUserId) with
    | none =>
      have hall := find?_userId_none.mp hfu
      have heq : handleMuteUser roomID targetUserId store = (store, []) := by
        simp [handleMuteUser, hf, hfu]
      rw [heq]
      refine ⟨?_, ?_, ?_, ?_, rfl⟩
      · intro c
        constructor
        · intro h; simp [mutedDeliveries] at h
        · rintro ⟨r, u, hr, hu, _⟩
          simp only [Option.some.injEq] at hr
          subst hr
          rw [hfu] at hu
          exact Option.noConfusion hu
      · intro _; rfl
      · intro r u hr hu
        simp only [Option.some.injEq] at hr
        subst hr
        rw [hfu] at hu
        exact Option.noConfusion hu
      · intro _; rfl
    | some u =>
      have hmem : u ∈ room.users := List.mem_of_find?_eq_some hfu
      have hid : u.userId = targetUserId := by simpa using List.find?_some hfu
      have heq : handleMuteUser roomID targetUserId store =
          (store, [Effect.toSocket u.socketID .muted]) := by
        simp [handleMuteUser, hf, hfu]
      rw [heq]
      have hmissing : ¬ (some room = none ∨
          ∃ r, some room = some r ∧ ∀ x ∈ r.users, x.userId ≠ targetUserId) := by
        rintro (h | ⟨r, hr, hall⟩)
        · exact Option.noConfusion h
        · simp only [Option.some.injEq] at hr
          subst hr
          exact absurd hid (hall u hmem)
      refine ⟨?_, ?_, ?_, fun h => absurd h hmissing, rfl⟩
      · intro c
        constructor
        · intro h
          cases hs : u.socketID with
          | none => rw [hs] at h; simp [mutedDeliveries] at h
          | some c' =>
            rw [hs] at h
            simp only [mutedDeliveries, List.cons.injEq, and_true] at h
            exact ⟨room, u, rfl, hfu, by rw [hs, h]⟩
        · rintro ⟨r, u', hr, hu', hc⟩
          simp only [Option.some.injEq] at hr
          subst hr
          rw [hfu] at hu'
          simp only [Option.some.injEq] at hu'
          subst hu'
          simp [hc, mutedDeliveries]
      · intro hnot
        cases hs : u.socketID with
        | none => simp [mutedDeliveries]
        | some c' => exact absurd ⟨room, u, c', rfl, hfu, hs⟩ hnot
      · intro r u' hr hu'
        simp only [Option.some.injEq] at hr
        subst hr
        rw [hfu] at hu'
        simp only [Option.some.injEq] at hu'
        subst hu'
        rfl

/-! ## One user per connection -/

theorem socketCount_append (c : String) (s t : Store) :
    socketCount c (s ++ t) = socketCount c s + socketCount c t := by
  simp [socketCount]

theorem socketCount_cons (c : String) (r : Room) (t : Store) :
    socketCount c (r :: t) =
      (r.users.countP fun u => u.socketID == some c) + socketCount c t := by
  simp [socketCount]

theorem socketCount_sublist (c : String) {s t : Store} (h : s.Sublist t) :
    socketCount c s ≤ socketCount c t := by
  induction h with
  | slnil => exact Nat.le_refl _
  | cons a _ ih => rw [socketCount_cons]; omega
  | cons₂ a _ ih => rw [socketCount_cons, socketCount_cons]; omega

theorem socketCount_saveFound (c roomID : String) (room room' : Room) (k : Nat) (store : Store)
    (hf : findOne roomID store = some room)
    (hle : (room'.users.countP fun u => u.socketID == some c) ≤
      (room.users.countP fun u => u.socketID == some c) + k) :
    socketCount c (saveFound roomID room' store) ≤ socketCount c store + k := by
  induction store with
  | nil => simp [findOne] at hf
  | cons a t ih =>
    by_cases ha : a.roomID = roomID
    · have : a = room := by simpa [findOne, List.find?_cons, ha] using hf
      subst this
      simp only [saveFound, ha, beq_self_eq_true, if_true, socketCount_cons]
      omega
    · have hf' : findOne roomID t = some room := by
        simpa [findOne, List.find?_cons, ha] using hf
      have hb : (a.roomID == roomID) = false := by simpa using ha
      simp only [saveFound, hb, Bool.false_eq_true, if_false, socketCount_cons]
      have := ih hf'
      omega

theorem countP_reconnectUser (c userId socketId : String) (peerID name : Option String)
    (users : List User) :
    ((reconnectUser userId socketId peerID name users).countP fun u => u.socketID == some c) ≤
      (users.countP fun u => u.socketID == some c) + (if c = socketId then 1 else 0) := by
  induction users with
  | nil => simp [reconnectUser]
  | cons a t ih =>
    by_cases ha : a.userId = userId
    · simp only [reconnectUser, ha, beq_self_eq_true, if_true, List.countP_cons]
      by_cases hc : c = socketId
      · subst hc; simp
      · have hne : ¬ socketId = c := fun h => hc h.symm
        simp [hc, hne]
    · have hb : (a.userId == userId) = false := by simpa using ha
      simp only [reconnectUser, hb, Bool.false_eq_true, if_false, List.countP_cons]
      omega

theorem socketCount_createRoom (c : String) (rand : Nat → Draw) (store : Store) :
    socketCount c (createRoom rand store).store = socketCount c store := by
  unfold createRoom
  cases hf : findOne (generateId rand) store with
  | some r => simp [hf]
  | none => simp [hf, socketCount]

theorem socketCount_join_le (c socketId : String) (p : JoinPayload) (rand : Nat → Draw)
    (store : Store) :
    socketCount c (handleJoinRoom socketId p rand store).store ≤
      socketCount c store + (if c = socketId then 1 else 0) := by
  unfold handleJoinRoom
  cases hf : findOne p.roomID store with
  | none => simp
  | some room =>
    by_cases hu : p.userId = ""
    · simp only [hu, bne_self_eq_false, Bool.false_eq_true, if_false, finishJoin]
      apply socketCount_saveFound c p.roomID room _ _ store hf
      by_cases hc : c = socketId
      · subst hc; simp
      · have hne : ¬ socketId = c := fun h => hc h.symm
        simp [hc, hne]
    · have hb : (p.userId != "") = true := by simpa using hu
      simp only [hb, if_true]
      cases hfu : room.users.find? (fun u => u.userId == p.userId) with
      | none => simp
      | some user =>
        simp only [finishJoin]
        exact socketCount_saveFound c p.roomID room _ _ store hf
          (countP_reconnectUser c p.userId socketId p.peerID _ room.users)

theorem socketCount_disconnectLoop_le (c socketId : String) (db : Store)
    (rooms pre : List Room) (hdb : db = pre ++ rooms) :
    socketCount c (disconnectLoop socketId db rooms pre.length).1 ≤ socketCount c db := by
  induction rooms generalizing pre with
  | nil => simp [disconnectLoop]
  | cons room rest ih =>
    unfold disconnectLoop
    cases hf : room.users.find? (fun user => user.socketID == some socketId) with
    | none =>
      have := ih (pre ++ [room]) (by simp [hdb])
      simpa using this
    | some du =>
      by_cases he : ((room.users.filter fun user => user.socketID != some socketId).length == 0)
          = true
      · simp only [he, if_true]
        exact socketCount_sublist c (deleteOne_sublist room.roomID db)
      · simp only [he, if_false, Bool.false_eq_true]
        subst hdb
        have hset : (pre ++ room :: rest).set pre.length
            ⟨room.roomID, room.users.filter fun user => user.socketID != some socketId⟩ =
            pre ++ ⟨room.roomID, room.users.filter fun user => user.socketID != some socketId⟩
              :: rest := by simp
        rw [hset, socketCount_append, socketCount_append, socketCount_cons, socketCount_cons]
        have hle : ((room.users.filter fun user => user.socketID != some socketId).countP
            fun u => u.socketID == some c) ≤ (room.users.countP fun u => u.socketID == some c) :=
          List.Sublist.countP_le _ (List.filter_sublist _)
        simp only at hle ⊢
        omega

theorem socketCount_step_le (c : String) (store : Store) (op : Op) :
    socketCount c (step store op) ≤ socketCount c store +
      (match op with
        | .joinRoom socketId _ _ => if c = socketId then 1 else 0
        | _ => 0) := by
  cases op with
  | createRoom rand => simp [step, socketCount_createRoom]
  | joinRoom socketId p rand => exact socketCount_join_le c socketId p rand store
  | chatMessage socketId p =>
    simp only [step, handleChat]
    cases findOne p.roomID store <;> simp
  | muteUser roomID targetUserId =>
    simp only [step, handleMuteUser]
    cases findOne roomID store with
    | none => simp
    | some room =>
      simp only []
      cases room.users.find? (fun user => user.userId == targetUserId) <;> simp
  | disconnect socketId =>
    simpa [step, handleDisconnect] using
      socketCount_disconnectLoop_le c socketId store store [] rfl

theorem step_uniqueSockets (store : Store) (op : Op) (h : UniqueSockets store)
    (hfresh : match op with
      | .joinRoom c _ _ => socketCount c store = 0
      | _ => True) :
    UniqueSockets (step store op) := by
  intro c
  have hle := socketCount_step_le c store op
  have hc := h c
  cases op with
  | joinRoom socketId p rand =>
    simp only at hle hfresh
    by_cases hcs : c = socketId
    · subst hcs
      simp only [if_true] at hle
      omega
    · simp only [hcs, if_false] at hle
      omega
  | createRoom rand => simp only at hle; omega
  | chatMessage socketId p => simp only at hle; omega
  | muteUser roomID targetUserId => simp only at hle; omega
  | disconnect socketId => simp only at hle; omega

/-- Uniqueness of socket ids is kept along every run whose joins arrive on
sockets that no stored user holds: the other operations never add a user
with a socket id. -/
theorem run_uniqueSockets (ops : List Op) (store : Store) (h : UniqueSockets store)
    (hfresh : FreshJoins store ops) : UniqueSockets (run store ops) := by
  induction ops generalizing store with
  | nil => exact h
  | cons op t ih =>
    exact ih (step store op) (step_uniqueSockets store op h hfresh.1) hfresh.2

/-- C11 fails on the code: after a room is created and the socket `c1` joins
it with an empty user id, every socket id is held by at most one user; a
second `join-room` on `c1` is accepted, without any look at the sockets
already stored, and leaves two users with socket id `c1`. -/
theorem unique_sockets_counterexample :
    UniqueSockets (run [] doubleJoinOps.dropLast) ∧
    run [] doubleJoinOps =
      [⟨"aaaaaaaaa", [⟨"aaaaaaaaa", none, none, "host", none⟩,
                      ⟨"sssssssss", some "c1", some "p1", "guest", some "Ann"⟩,
                      ⟨"bbbbbbbbb", some "c1", some "p1", "guest", some "Ann"⟩]⟩] ∧
    socketCount "c1" (run [] doubleJoinOps) = 2 ∧
    ¬ UniqueSockets (run [] doubleJoinOps) := by
  refine ⟨?_, by decide, by decide, ?_⟩
  · intro c
    have hstore : run [] doubleJoinOps.dropLast =
        [⟨"aaaaaaaaa", [⟨"aaaaaaaaa", none, none, "host", none⟩,
                        ⟨"sssssssss", some "c1", some "p1", "guest", some "Ann"⟩]⟩] := by
      decide
    rw [hstore]
    by_cases hc : "c1" = c <;> simp [socketCount, List.countP_cons, hc]
  · intro h
    have h2 := h "c1"
    have h3 : socketCount "c1" (run [] doubleJoinOps) = 2 := by decide
    omega

/-- The `disconnect` handler stops at the first room holding the socket: when
`c1` has joined two rooms, the socket id is held by two users before the
disconnect, and afterwards the user in the second room is still stored with
the socket id of the closed connection. -/
theorem disconnect_leaves_second_user :
    socketCount "c1" (run [] twoRoomJoinOps.dropLast) = 2 ∧
    run [] twoRoomJoinOps =
      [⟨"aaaaaaaaa", [⟨"aaaaaaaaa", none, none, "host", none⟩]⟩,
       ⟨"sssssssss", [⟨"sssssssss", none, none, "host", none⟩,
                      ⟨"bbbbbbbbb", some "c1", some "p1", "guest", some "Ann"⟩]⟩] ∧
    (handleDisconnect "c1" (run [] twoRoomJoinOps.dropLast)).2 =
      [Effect.toRoomExcept "aaaaaaaaa" "c1" (.userDisconnected (some "p1"))] := by
  decide

/-! ## Roles of users -/

theorem rolesOrdered_of_sublist {l₁ l₂ : List User} (h : l₁.Sublist l₂)
    (h2 : RolesOrdered l₂) : RolesOrdered l₁ := by
  have hm : (l₁.map User.type).Sublist (l₂.map User.type) := h.map _
  exact ⟨fun t ht => h2.1 t (hm.tail.subset ht), fun t ht => h2.2 t (hm.subset ht)⟩

theorem rolesOrdered_of_map_eq {l₁ l₂ : List User}
    (h : l₁.map (fun u => (u.userId, u.type)) = l₂.map (fun u => (u.userId, u.type)))
    (h2 : RolesOrdered l₂) : RolesOrdered l₁ := by
  have hm : l₁.map User.type = l₂.map User.type := by
    have := congrArg (List.map Prod.snd) h
    simpa [List.map_map, Function.comp_def] using this
  unfold RolesOrdered
  rw [hm]
  exact h2

theorem rolesOrdered_append_guest {l : List User} {u : User} (hu : u.type = "guest")
    (h : RolesOrdered l) : RolesOrdered (l ++ [u]) := by
  constructor
  · intro t ht
    rw [List.map_append, List.tail_append] at ht
    by_cases he : (l.map User.type).isEmpty
    · simp only [he, if_true, List.map_cons, List.map_nil, List.tail_cons] at ht
      simp at ht
    · simp only [he, Bool.false_eq_true, if_false, List.mem_append, List.map_cons, List.map_nil,
        List.mem_singleton] at ht
      rcases ht with ht | ht
      · exact h.1 t ht
      · rw [ht, hu]
  · intro t ht
    rw [List.map_append, List.mem_append] at ht
    rcases ht with ht | ht
    · exact h.2 t ht
    · simp only [List.map_cons, List.map_nil, List.mem_singleton] at ht
      exact Or.inr (by rw [ht, hu])

theorem map_reconnectUser (userId socketId : String) (peerID name : Option String)
    (users : List User) :
    (reconnectUser userId socketId peerID name users).map (fun u => (u.userId, u.type)) =
      users.map (fun u => (u.userId, u.type)) := by
  induction users with
  | nil => rfl
  | cons a t ih =>
    by_cases ha : a.userId = userId
    · simp [reconnectUser, ha]
    · simp [reconnectUser, ha, ih]

theorem rolesOrdered_of_kept {r r' : Room} (h : RolesKept r r') (h2 : RolesOrdered r.users) :
    RolesOrdered r'.users := by
  rcases h with h | h | ⟨u, h, hu⟩
  · exact rolesOrdered_of_sublist h h2
  · exact rolesOrdered_of_map_eq h h2
  · rw [h]; exact rolesOrdered_append_guest hu h2

/-- Each room after `join-room` is a stored room or keeps the roles of the
stored room it replaces. -/
theorem handleJoinRoom_rolesKept (socketId : String) (p : JoinPayload) (rand : Nat → Draw)
    (store : Store) (r' : Room) (h : r' ∈ (handleJoinRoom socketId p rand store).store) :
    ∃ r ∈ store, r'.roomID = r.roomID ∧ RolesKept r r' := by
  have hrefl : ∀ x ∈ store, ∃ r ∈ store, x.roomID = r.roomID ∧ RolesKept r x :=
    fun x hx => ⟨x, hx, rfl, Or.inl (List.Sublist.refl _)⟩
  unfold handleJoinRoom at h
  cases hf : findOne p.roomID store with
  | none => rw [hf] at h; exact hrefl r' h
  | some room =>
    have hroom : room ∈ store := findOne_mem hf
    rw [hf] at h
    by_cases hu : p.userId = ""
    · simp only [hu, bne_self_eq_false, Bool.false_eq_true, if_false, finishJoin] at h
      rcases mem_saveFound h with h | h
      · subst h
        exact ⟨room, hroom, rfl, Or.inr (Or.inr ⟨_, rfl, rfl⟩)⟩
      · exact hrefl r' h
    · have hb : (p.userId != "") = true := by simpa using hu
      simp only [hb, if_true] at h
      cases hfu : room.users.find? (fun u => u.userId == p.userId) with
      | none => rw [hfu] at h; exact hrefl r' h
      | some user =>
        rw [hfu] at h
        simp only [finishJoin] at h
        rcases mem_saveFound h with h | h
        · subst h
          exact ⟨room, hroom, rfl, Or.inr (Or.inl (map_reconnectUser _ _ _ _ _))⟩
        · exact hrefl r' h

/-- Each room after the disconnect loop is a stored room or holds some of the
user records of a stored room with the same id. -/
theorem disconnectLoop_rolesKept (c : String) (db : Store) (rooms : List Room) (idx : Nat)
    (hrooms : ∀ r ∈ rooms, r ∈ db) (r' : Room) (h : r' ∈ (disconnectLoop c db rooms idx).1) :
    ∃ r ∈ db, r'.roomID = r.roomID ∧ RolesKept r r' := by
  have hrefl : ∀ x ∈ db, ∃ r ∈ db, x.roomID = r.roomID ∧ RolesKept r x :=
    fun x hx => ⟨x, hx, rfl, Or.inl (List.Sublist.refl _)⟩
  induction rooms generalizing idx with
  | nil => exact hrefl r' (by simpa [disconnectLoop] using h)
  | cons room rest ih =>
    unfold disconnectLoop at h
    cases hf : room.users.find? (fun user => user.socketID == some c) with
    | none =>
      rw [hf] at h
      exact ih (idx + 1) (fun r hr => hrooms r (List.mem_cons_of_mem _ hr)) h
    | some du =>
      rw [hf] at h
      by_cases he : ((room.users.filter fun user => user.socketID != some c).length == 0) = true
      · simp only [he, if_true] at h
        exact hrefl r' (mem_deleteOne h)
      · simp only [he, if_false, Bool.false_eq_true] at h
        rcases List.mem_or_eq_of_mem_set h with h | h
        · exact hrefl r' h
        · subst h
          exact ⟨room, hrooms room (List.mem_cons_self _ _), rfl,
            Or.inl (List.filter_sublist _)⟩

/-- Each room after one operation is a room just created with a single host,
or keeps the roles of a stored room with the same id. -/
theorem step_rolesKept (store : Store) (op : Op) (r' : Room) (h : r' ∈ step store op) :
    (∃ r ∈ store, r'.roomID = r.roomID ∧ RolesKept r r') ∨
    (∃ host : User, r'.users = [host] ∧ host.type = "host" ∧
      findOne r'.roomID store = none) := by
  have hrefl : ∀ x ∈ store, ∃ r ∈ store, x.roomID = r.roomID ∧ RolesKept r x :=
    fun x hx => ⟨x, hx, rfl, Or.inl (List.Sublist.refl _)⟩
  cases op with
  | createRoom rand =>
    simp only [step, createRoom] at h
    cases hf : findOne (generateId rand) store with
    | some r => rw [hf] at h; exact Or.inl (hrefl r' h)
    | none =>
      rw [hf] at h
      simp only [List.mem_append, List.mem_singleton] at h
      rcases h with h | h
      · exact Or.inl (hrefl r' h)
      · subst h
        exact Or.inr ⟨_, rfl, rfl, hf⟩
  | joinRoom socketId p rand =>
    exact Or.inl (handleJoinRoom_rolesKept socketId p rand store r' h)
  | chatMessage socketId p =>
    simp only [step, handleChat] at h
    cases hf : findOne p.roomID store <;> rw [hf] at h <;> exact Or.inl (hrefl r' h)
  | muteUser roomID targetUserId =>
    simp only [step, handleMuteUser] at h
    cases hf : findOne roomID store with
    | none => rw [hf] at h; exact Or.inl (hrefl r' h)
    | some room =>
      rw [hf] at h
      simp only [] at h
      cases hfu : room.users.find? (fun user => user.userId == targetUserId) <;>
        rw [hfu] at h <;> exact Or.inl (hrefl r' h)
  | disconnect socketId =>
    exact Or.inl (disconnectLoop_rolesKept socketId store store 0 (fun r hr => hr) r' h)

theorem step_rolesOrdered (store : Store) (op : Op)
    (hinv : ∀ r ∈ store, RolesOrdered r.users) :
    ∀ r ∈ step store op, RolesOrdered r.users := by
  intro r' hr'
  rcases step_rolesKept store op r' hr' with ⟨r, hr, _, hk⟩ | ⟨host, hu, hh, _⟩
  · exact rolesOrdered_of_kept hk (hinv r hr)
  · rw [hu]
    exact ⟨by simp, by simp [hh]⟩

theorem run_rolesOrdered (ops : List Op) (store : Store)
    (hinv : ∀ r ∈ store, RolesOrdered r.users) :
    ∀ r ∈ run store ops, RolesOrdered r.users := by
  induction ops generalizing store with
  | nil => exact hinv
  | cons op t ih => exact ih (step store op) (step_rolesOrdered store op hinv)

/-- C14: in every store reached from the empty store, each room has at most
one user with role `host`, a user with role `host` is the first of the room's
user sequence, and all later users are guests; every room after a
`join-room` keeps the roles of the stored room it replaces, a user it adds
being a guest; and after any operation every room is either a room just
created with a single host or keeps the user records, user ids and roles of
a stored room (no operation changes the role of an existing user). -/
theorem role_invariant (ops : List Op) :
    (∀ r ∈ run [] ops,
      (r.users.countP fun u => u.type == "host") ≤ 1 ∧
      (∀ u ∈ r.users, u.type = "host" → r.users.head? = some u) ∧
      (∀ u ∈ r.users.tail, u.type = "guest")) ∧
    (∀ (store : Store) (c : String) (p : JoinPayload) (rand : Nat → Draw),
      ∀ r' ∈ (handleJoinRoom c p rand store).store,
        ∃ r ∈ store, r'.roomID = r.roomID ∧ RolesKept r r') ∧
    (∀ (store : Store) (op : Op), ∀ r' ∈ step store op,
      (∃ r ∈ store, r'.roomID = r.roomID ∧ RolesKept r r') ∨
      (∃ host : User, r'.users = [host] ∧ host.type = "host" ∧
        findOne r'.roomID store = none)) := by
  refine ⟨?_, fun store c p rand r' h => handleJoinRoom_rolesKept c p rand store r' h,
    fun store op r' h => step_rolesKept store op r' h⟩
  intro r hr
  have hinv := run_rolesOrdered ops [] (by intro x hx; simp at hx) r hr
  have htail : ∀ u ∈ r.users.tail, u.type = "guest" := by
    intro u hu
    apply hinv.1
    rw [← List.map_tail]
    exact List.mem_map_of_mem _ hu
  refine ⟨?_, ?_, htail⟩
  · cases hus : r.users with
    | nil => simp
    | cons a t =>
      rw [hus] at htail
      have hz : (t.countP fun u => u.type == "host") = 0 := by
        rw [List.countP_eq_zero]
        intro u hu
        have := htail u (by simpa using hu)
        simp [this]
      rw [List.countP_cons, hz]
      split <;> omega
  · intro u hu hhost
    cases hus : r.users with
    | nil => rw [hus] at hu; simp at hu
    | cons a t =>
      rw [hus] at hu htail
      rcases List.mem_cons.mp hu with h | h
      · simp [h]
      · have := htail u (by simpa using h)
        rw [this] at hhost
        exact absurd hhost (by decide)

/-! ## End-to-end scenario -/

theorem forall_ne_of_findOne_none {roomID : String} {store : Store}
    (h : findOne roomID store = none) : ∀ r ∈ store, r.roomID ≠ roomID := by
  simpa [findOne, List.find?_eq_none] using h

theorem saveFound_last {roomID : String} (store : Store) (old room : Room)
    (h : findOne roomID store = none) (hid : old.roomID = roomID) :
    saveFound roomID room (store ++ [old]) = store ++ [room] := by
  induction store with
  | nil => simp [saveFound, hid]
  | cons a t ih =>
    have ha : a.roomID ≠ roomID := forall_ne_of_findOne_none h a (List.mem_cons_self _ _)
    have ht : findOne roomID t = none := by
      simpa [findOne, List.find?_cons, ha] using h
    simp [saveFound, ha, ih ht]

/-- C17: the scenario of section 8.  Start from a store without the
generated room id `R` in which no user holds the sockets `cH` and `cG`, with
`cH ≠ cG`.  `create-room` stores `R` with host `H`; `H` joins with its user
id on `cH` and gets role `host`; a guest joins on `cG` with an empty user id
and gets role `guest` and the list `[H]`, and `user-joined` for the guest is
addressed to the group of `R` excluding `cG`; the guest's chat message gives
one `new-message` addressed to the group of `R` excluding `cG`; `disconnect`
on `cG` gives `user-disconnected` with the guest's peer id, addressed to the
group of `R` excluding `cG`, and leaves `R` stored with `H` as its only user;
`disconnect` on `cH` then deletes `R`, leaving the initial store. -/
theorem scenario (store₀ : Store) (rand₁ randH randG : Nat → Draw) (cH cG : String)
    (peerH nameH peerG nameG : Option String) (sender message : String) (chatName : Option String)
    (h0 : findOne (generateId rand₁) store₀ = none)
    (hcH : ∀ r ∈ store₀, ∀ u ∈ r.users, u.socketID ≠ some cH)
    (hcG : ∀ r ∈ store₀, ∀ u ∈ r.users, u.socketID ≠ some cG)
    (hne : cH ≠ cG) :
    ∃ (R H G : String) (hostRec guestRec : User) (s₁ s₂ s₃ s₄ : Store),
      R = generateId rand₁ ∧ H = generateId (fun i => rand₁ (i + 9)) ∧ G = generateId randG ∧
      hostRec = ⟨H, some cH, peerH, "host", nameH⟩ ∧
      guestRec = ⟨G, some cG, peerG, "guest",
        if nameMissing nameG = true then some ("Guest " ++ toString 1) else nameG⟩ ∧
      createRoom rand₁ store₀ = ⟨s₁, 200, .created R "host" H⟩ ∧
      s₁ = store₀ ++ [⟨R, [⟨H, none, none, "host", none⟩]⟩] ∧
      handleJoinRoom cH ⟨R, peerH, H, nameH⟩ randH s₁ =
        ⟨s₂, .ok "host" [],
          [.joinGroup cH R, .toRoomExcept R cH (.userJoined peerH H nameH)]⟩ ∧
      s₂ = store₀ ++ [⟨R, [hostRec]⟩] ∧
      handleJoinRoom cG ⟨R, peerG, "", nameG⟩ randG s₂ =
        ⟨s₃, .ok "guest" [hostRec],
          [.joinGroup cG R, .toRoomExcept R cG (.userJoined peerG G guestRec.name)]⟩ ∧
      s₃ = store₀ ++ [⟨R, [hostRec, guestRec]⟩] ∧
      handleChat cG ⟨sender, message, R, chatName⟩ s₃ =
        (s₃, [.toRoomExcept R cG (.newMessage sender message chatName)]) ∧
      handleDisconnect cG s₃ = (s₄, [.toRoomExcept R cG (.userDisconnected peerG)]) ∧
      s₄ = store₀ ++ [⟨R, [hostRec]⟩] ∧
      findOne R s₄ = some ⟨R, [hostRec]⟩ ∧
      handleDisconnect cH s₄ = (store₀, [.toRoomExcept R cH (.userDisconnected peerH)]) ∧
      findOne R store₀ = none := by
  have hHne := generateId_ne_empty (fun i => rand₁ (i + 9))
  have hids := forall_ne_of_findOne_none h0
  have hGH : ¬ cG = cH := fun h => hne h.symm
  have hf : ∀ users : List User,
      findOne (generateId rand₁) (store₀ ++ [⟨generateId rand₁, users⟩]) =
        some ⟨generateId rand₁, users⟩ :=
    fun users => findOne_append_of_none _ h0 rfl
  have hsave : ∀ users users' : List User,
      saveFound (generateId rand₁) ⟨generateId rand₁, users'⟩
        (store₀ ++ [⟨generateId rand₁, users⟩]) = store₀ ++ [⟨generateId rand₁, users'⟩] :=
    fun users users' => saveFound_last store₀ _ _ h0 rfl
  refine ⟨_, _, _, _, _, _, _, _, _, rfl, rfl, rfl, rfl, rfl, ?_, rfl, ?_, rfl, ?_, rfl, ?_, ?_,
    rfl, ?_, ?_, h0⟩
  · simp [createRoom, h0]
  · simp [handleJoinRoom, hf, hHne, finishJoin, reconnectUser, hsave]
  · simp [handleJoinRoom, hf, finishJoin, hsave, hne, hGH]
  · simp [handleChat, hf]
  · rw [handleDisconnect_first cG store₀ _ [] ⟨generateId randG, some cG, peerG, "guest",
        if nameMissing nameG = true then some ("Guest " ++ toString 1) else nameG⟩ hcG
        (by simp [List.find?_cons, hne])]
    simp [hne]
  · exact hf _
  · rw [handleDisconnect_first cH store₀ _ [] ⟨generateId (fun i => rand₁ (i + 9)), some cH,
        peerH, "host", nameH⟩ hcH (by simp [List.find?_cons])]
    have hdel := deleteOne_of_first
      (⟨generateId rand₁, [⟨generateId (fun i => rand₁ (i + 9)), some cH, peerH, "host",
        nameH⟩]⟩ : Room) store₀ [] hids
    simp only [List.append_nil] at hdel
    simp [hdel]

theorem scenario_witness :
    ∃ (R H G : String) (hostRec guestRec : User) (s₁ s₂ s₃ s₄ : Store),
      R = generateId zeroRand ∧ H = generateId (fun i => zeroRand (i + 9)) ∧
      G = generateId halfRand ∧
      hostRec = ⟨H, some "cH", some "pH", "host", some "Hana"⟩ ∧
      guestRec = ⟨G, some "cG", some "pG", "guest",
        if nameMissing none = true then some ("Guest " ++ toString 1) else none⟩ ∧
      createRoom zeroRand [] = ⟨s₁, 200, .created R "host" H⟩ ∧
      s₁ = [] ++ [⟨R, [⟨H, none, none, "host", none⟩]⟩] ∧
      handleJoinRoom "cH" ⟨R, some "pH", H, some "Hana"⟩ oneRand s₁ =
        ⟨s₂, .ok "host" [],
          [.joinGroup "cH" R, .toRoomExcept R "cH" (.userJoined (some "pH") H (some "Hana"))]⟩ ∧
      s₂ = [] ++ [⟨R, [hostRec]⟩] ∧
      handleJoinRoom "cG" ⟨R, some "pG", "", none⟩ halfRand s₂ =
        ⟨s₃, .ok "guest" [hostRec],
          [.joinGroup "cG" R, .toRoomExcept R "cG" (.userJoined (some "pG") G guestRec.name)]⟩ ∧
      s₃ = [] ++ [⟨R, [hostRec, guestRec]⟩] ∧
      handleChat "cG" ⟨"G", "hello", R, some "Guest 1"⟩ s₃ =
        (s₃, [.toRoomExcept R "cG" (.newMessage "G" "hello" (some "Guest 1"))]) ∧
      handleDisconnect "cG" s₃ = (s₄, [.toRoomExcept R "cG" (.userDisconnected (some "pG"))]) ∧
      s₄ = [] ++ [⟨R, [hostRec]⟩] ∧
      findOne R s₄ = some ⟨R, [hostRec]⟩ ∧
      handleDisconnect "cH" s₄ = ([], [.toRoomExcept R "cH" (.userDisconnected (some "pH"))]) ∧
      findOne R [] = none :=
  scenario [] zeroRand oneRand halfRand "cH" "cG" (some "pH") (some "Hana") (some "pG") none
    "G" "hello" (some "Guest 1") (by decide) (by decide) (by decide) (by decide)

end Chatterbox
